import Mathlib

/-!
Shallow embedding of the doc-generator core (code structural analyzer,
prompt assembler, LLM protocol adapters) and proofs about it.

JavaScript strings are modelled as Lean `String` values; where proofs need
list reasoning we go through the underlying `List Char` (`String.data`).
Each definition mirrors one function of the TypeScript source; the regular
expressions of the source are compiled by hand into character-level
matchers with the same greedy/backtracking semantics, as documented at
each matcher.
-/

namespace DocGen

/-- JavaScript whitespace class `\s` restricted to the characters that can
actually occur in the analyzed text (ASCII whitespace). -/
def isJsWs (c : Char) : Bool :=
  c = ' ' || c = '\t' || c = '\n' || c = '\r' || c = '\x0b' || c = '\x0c'

/-- JavaScript word-character class `\w` = `[A-Za-z0-9_]`. -/
def isWordChar (c : Char) : Bool :=
  ('a' ≤ c && c ≤ 'z') || ('A' ≤ c && c ≤ 'Z') || ('0' ≤ c && c ≤ '9') || c = '_'

/-- `String.prototype.trim`: strip whitespace from both ends (on char lists). -/
def jsTrimL (cs : List Char) : List Char :=
  ((cs.dropWhile isJsWs).reverse.dropWhile isJsWs).reverse

/-- A line is blank when `line.trim()` is falsy, i.e. every char is whitespace. -/
def isBlankL (cs : List Char) : Bool := cs.all isJsWs

/-- Leading-whitespace length of a line: `line.match(/^(\s*)/)[1].length`. -/
def indentOf (cs : List Char) : Nat := (cs.takeWhile isJsWs).length

/-- Number of newline characters in a char list. -/
def countNl (cs : List Char) : Nat := cs.count '\n'

/-- `code.split('\n')` on char lists. -/
def splitNl : List Char → List (List Char)
  | [] => [[]]
  | c :: rest =>
    if c = '\n' then [] :: splitNl rest
    else
      match splitNl rest with
      | [] => [[c]]
      | l :: ls => (c :: l) :: ls

theorem splitNl_ne_nil (cs : List Char) : splitNl cs ≠ [] := by
  induction cs with
  | nil => simp [splitNl]
  | cons c rest ih =>
    simp only [splitNl]
    split
    · simp
    · cases h : splitNl rest with
      | nil => simp
      | cons l ls => simp

theorem length_splitNl (cs : List Char) : (splitNl cs).length = countNl cs + 1 := by
  induction cs with
  | nil => simp [splitNl, countNl]
  | cons c rest ih =>
    simp only [splitNl]
    split
    · rename_i h
      subst h
      simp [countNl, List.count_cons] at ih ⊢
      omega
    · rename_i h
      cases hs : splitNl rest with
      | nil => exact absurd hs (splitNl_ne_nil rest)
      | cons l ls =>
        rw [hs] at ih
        simp [countNl, List.count_cons] at ih ⊢
        simp [h, ih]

/-- Monotonicity of the newline count under `take`. -/
theorem countNl_take_mono (cs : List Char) {a b : Nat} (h : a ≤ b) :
    countNl (cs.take a) ≤ countNl (cs.take b) := by
  have heq : cs.take a = (cs.take b).take a := by
    rw [List.take_take, Nat.min_eq_left h]
  rw [heq]
  exact (List.take_sublist a (cs.take b)).count_le '\n'

theorem countNl_take_le (cs : List Char) (a : Nat) :
    countNl (cs.take a) ≤ countNl cs := by
  exact (List.take_sublist a cs).count_le '\n'

/-!
## Data model (`src/lib/types.ts`)

Optional TypeScript fields become `Option`; string-literal unions become
small inductive types.
-/

inductive Visibility | pub | priv | prot
deriving DecidableEq, Repr

structure ParamInfo where
  name : String
  type : Option String := none
  isOptional : Bool
  defaultValue : Option String := none
deriving DecidableEq, Repr

structure PropertyInfo where
  name : String
  type : Option String := none
  isOptional : Bool
  isReadonly : Bool
deriving DecidableEq, Repr

structure MethodInfo where
  name : String
  params : List ParamInfo
  returnType : Option String := none
  isAsync : Bool
  isStatic : Bool
  visibility : Visibility
deriving DecidableEq, Repr

structure ClassInfo where
  name : String
  superClass : Option String := none
  impl : Option (List String) := none
  properties : List PropertyInfo
  methods : List MethodInfo
  comments : Option (List String) := none
  startLine : Nat
  endLine : Nat
deriving DecidableEq, Repr

structure FunctionInfo where
  name : String
  params : List ParamInfo
  returnType : Option String := none
  isAsync : Bool
  isExported : Bool
  comments : Option (List String) := none
  startLine : Nat
  endLine : Nat
deriving DecidableEq, Repr

structure MethodSignature where
  name : String
  params : List ParamInfo
  returnType : Option String := none
deriving DecidableEq, Repr

structure InterfaceInfo where
  name : String
  ext : Option (List String) := none
  properties : List PropertyInfo
  methods : List MethodSignature
  comments : Option (List String) := none
  startLine : Nat
  endLine : Nat
deriving DecidableEq, Repr

structure ImportInfo where
  source : String
  specifiers : List String
  isDefault : Bool
deriving DecidableEq, Repr

inductive ExportKind | class' | function' | variable' | interface' | type'
deriving DecidableEq, Repr

structure ExportInfo where
  name : String
  isDefault : Bool
  type : ExportKind
deriving DecidableEq, Repr

inductive CommentKind | line | block | jsdoc
deriving DecidableEq, Repr

structure CommentInfo where
  type : CommentKind
  content : String
  startLine : Nat
  endLine : Nat
deriving DecidableEq, Repr

structure CodeMetadata where
  fileName : String
  language : String
  classes : List ClassInfo
  functions : List FunctionInfo
  interfaces : List InterfaceInfo
  imports : List ImportInfo
  exports : List ExportInfo
  comments : List CommentInfo
  rawCode : String
deriving DecidableEq, Repr

/-!
## Python block extraction (`extractPythonBlock`, python-parser)

The source records the header line, then scans forward: blank lines are
always kept; a non-blank line with indent less than or equal to the header
indent terminates the block (exclusive); other lines are kept.
-/

/-- The forward scan of `extractPythonBlock` after the header line. -/
def extractBlockAux (startIndent : Nat) : List (List Char) → List (List Char)
  | [] => []
  | l :: rest =>
    if isBlankL l then l :: extractBlockAux startIndent rest
    else if indentOf l ≤ startIndent then []
    else l :: extractBlockAux startIndent rest

/-- `extractPythonBlock(lines, startIndex)`: the block beginning at the
header line `lines[startIndex]`.  The source indexes `lines[startIndex]`
directly, so it is only ever called with a valid index; on an invalid
index this model returns `[]`. -/
def extractPythonBlock (lines : List (List Char)) (startIndex : Nat) : List (List Char) :=
  match lines.drop startIndex with
  | [] => []
  | l :: rest => l :: extractBlockAux (indentOf l) rest

theorem extractBlockAux_mem {k : Nat} {rest : List (List Char)} {l : List Char}
    (h : l ∈ extractBlockAux k rest) : isBlankL l = true ∨ k < indentOf l := by
  induction rest with
  | nil => simp [extractBlockAux] at h
  | cons x xs ih =>
    simp only [extractBlockAux] at h
    by_cases hb : isBlankL x = true
    · rw [if_pos hb] at h
      rcases List.mem_cons.mp h with h | h
      · left; rw [h]; exact hb
      · exact ih h
    · rw [if_neg hb] at h
      by_cases hi : indentOf x ≤ k
      · rw [if_pos hi] at h
        simp at h
      · rw [if_neg hi] at h
        rcases List.mem_cons.mp h with h | h
        · right; rw [h]; omega
        · exact ih h

theorem extractBlockAux_take (k : Nat) (rest : List (List Char)) :
    extractBlockAux k rest = rest.take (extractBlockAux k rest).length := by
  induction rest with
  | nil => simp [extractBlockAux]
  | cons x xs ih =>
    simp only [extractBlockAux]
    by_cases hb : isBlankL x
    · simp only [hb, if_true, List.length_cons, List.take_succ_cons, List.cons.injEq,
        true_and]
      exact ih
    · simp only [hb, Bool.false_eq_true, if_false]
      by_cases hi : indentOf x ≤ k
      · simp [hi]
      · simp only [hi, if_false, List.length_cons, List.take_succ_cons, List.cons.injEq,
        true_and]
        exact ih

theorem extractBlockAux_next {k : Nat} {rest : List (List Char)} {l : List Char}
    (h : rest[(extractBlockAux k rest).length]? = some l) :
    isBlankL l = false ∧ indentOf l ≤ k := by
  induction rest with
  | nil => simp at h
  | cons x xs ih =>
    simp only [extractBlockAux] at h
    by_cases hb : isBlankL x
    · simp only [hb, if_true, List.length_cons, List.getElem?_cons_succ] at h
      exact ih h
    · by_cases hi : indentOf x ≤ k
      · simp only [hb, Bool.false_eq_true, if_false, hi, if_true, List.length_nil,
          List.getElem?_cons_zero, Option.some.injEq] at h
        subst h
        exact ⟨by simpa using hb, hi⟩
      · simp only [hb, Bool.false_eq_true, if_false, hi, List.length_cons,
          List.getElem?_cons_succ] at h
        exact ih h

/-- C3: for every list of lines and valid 0-based header index, the Python
block-extraction primitive returns a contiguous range starting with the
header line; every non-header line of the block is blank or strictly more
indented than the header; and the first line after the block (when one
exists) is non-blank with indent at most the header's, so blank lines
never terminate the scan. -/
theorem extractPythonBlock_spec (lines : List (List Char)) (i : Nat)
    (h : i < lines.length) :
    (extractPythonBlock lines i).head? = some lines[i] ∧
    extractPythonBlock lines i =
      (lines.drop i).take (extractPythonBlock lines i).length ∧
    (∀ l ∈ (extractPythonBlock lines i).tail,
      isBlankL l = false → indentOf lines[i] < indentOf l) ∧
    (∀ l, (lines.drop i)[(extractPythonBlock lines i).length]? = some l →
      isBlankL l = false ∧ indentOf l ≤ indentOf lines[i]) := by
  have hdrop : lines.drop i = lines[i] :: lines.drop (i + 1) :=
    List.drop_eq_getElem_cons h
  have hblock : extractPythonBlock lines i =
      lines[i] :: extractBlockAux (indentOf lines[i]) (lines.drop (i + 1)) := by
    unfold extractPythonBlock
    rw [hdrop]
  refine ⟨?_, ?_, ?_, ?_⟩
  · rw [hblock]; rfl
  · rw [hblock, hdrop]
    simp only [List.length_cons, List.take_succ_cons, List.cons.injEq, true_and]
    exact extractBlockAux_take _ _
  · intro l hl hnb
    rw [hblock] at hl
    rcases extractBlockAux_mem hl with hb | hk
    · rw [hnb] at hb; cases hb
    · exact hk
  · intro l hl
    rw [hblock, hdrop] at hl
    simp only [List.length_cons, List.getElem?_cons_succ] at hl
    exact extractBlockAux_next hl

/-- Witness for C3 at a concrete input: header `def f():` at index 0, body
line `    x`, then a dedented terminator `y`. -/
theorem extractPythonBlock_spec_witness :
    (0 < (["def f():".data, "    x".data, "y".data] : List (List Char)).length) ∧
    (extractPythonBlock ["def f():".data, "    x".data, "y".data] 0).head? =
      some "def f():".data :=
  ⟨by decide,
   (extractPythonBlock_spec ["def f():".data, "    x".data, "y".data] 0
      (by decide)).1⟩

/-!
## Generic string helpers shared by the matchers

The regular expressions of `python-parser.ts` are compiled by hand into
character-level matchers.  Greedy quantifiers over disjoint character
classes need no backtracking; the few places where JavaScript regex
backtracking is observable are derived and documented inline.
-/

/-- Build a `String` back from a char list. -/
def strOf (cs : List Char) : String := ⟨cs⟩

/-- `String.prototype.startsWith` on char lists. -/
def startsWithL (cs pre : List Char) : Bool := cs.take pre.length = pre

/-- `String.prototype.endsWith` on char lists. -/
def endsWithL (cs suf : List Char) : Bool := cs.reverse.take suf.length = suf.reverse

/-- `String.prototype.indexOf` for a substring: first index at which `sub`
occurs in `cs`. -/
def indexOfSub (cs sub : List Char) : Option Nat :=
  (List.range (cs.length + 1)).find? (fun i => (cs.drop i).take sub.length = sub)

/-- `String.prototype.includes` on char lists. -/
def includesL (cs sub : List Char) : Bool := (indexOfSub cs sub).isSome

/-- `String.prototype.split(sep)` for a one-character separator. -/
def splitOnChar (sep : Char) : List Char → List (List Char)
  | [] => [[]]
  | c :: rest =>
    if c = sep then [] :: splitOnChar sep rest
    else
      match splitOnChar sep rest with
      | [] => [[c]]
      | l :: ls => (c :: l) :: ls

/-- Run an anchored matcher at every position of `cs` in order and return
the first success: the semantics of an unanchored regex search. -/
def searchFirst {α : Type} (m : List Char → Option α) : List Char → Option α
  | [] => m []
  | cs@(_ :: rest) =>
    match m cs with
    | some r => some r
    | none => searchFirst m rest

/-- The 0-based positions where a line starts in `code` (position 0 and
every position following a newline): the places the `m`-flag anchor `^`
can match. -/
def lineStarts (code : List Char) : List Nat :=
  0 :: code.enum.filterMap (fun ic => if ic.2 = '\n' then some (ic.1 + 1) else none)

/-- The `exec` loop of a global multiline-anchored regex: try the matcher
at each line start at or past the current `lastIndex`; a successful match
of length `len` advances `lastIndex` past the matched text. -/
def execAnchoredGo {α : Type} (matcher : List Char → Option (α × Nat)) (code : List Char) :
    List Nat → Nat → List (Nat × α)
  | [], _ => []
  | p :: ps, start =>
    if p < start then execAnchoredGo matcher code ps start
    else
      match matcher (code.drop p) with
      | none => execAnchoredGo matcher code ps start
      | some (a, len) => (p, a) :: execAnchoredGo matcher code ps (p + len)

/-- All matches of an `^`-anchored global multiline regex over `code`,
with their positions. -/
def execAnchored {α : Type} (matcher : List Char → Option (α × Nat)) (code : List Char) :
    List (Nat × α) :=
  execAnchoredGo matcher code (lineStarts code) 0

/-!
## Python parser (`src/lib/code-parser/python-parser.ts`)
-/

/-- Matcher for `/^class\s+(\w+)(?:\(([^)]*)\))?:/` at one anchor position:
returns class name, raw inheritance capture, and match length.  If the
parenthesis group is entered but unclosed or not followed by `:` the whole
match fails (the fallback without the group would need `:` where `(`
stands). -/
def matchClassAt (cs : List Char) : Option ((List Char × Option (List Char)) × Nat) :=
  if cs.take 5 = "class".data then
    let r1 := cs.drop 5
    let ws := r1.takeWhile isJsWs
    if ws = [] then none else
    let r2 := r1.drop ws.length
    let name := r2.takeWhile isWordChar
    if name = [] then none else
    match r2.drop name.length with
    | '(' :: r4 =>
      let inner := r4.takeWhile (fun c => c ≠ ')')
      match r4.drop inner.length with
      | ')' :: ':' :: _ =>
        some ((name, some inner), 5 + ws.length + name.length + inner.length + 3)
      | _ => none
    | ':' :: _ => some ((name, none), 5 + ws.length + name.length + 1)
    | _ => none
  else none

/-- Matcher for the trailing `(?:\s*->\s*(\S+))?:` of the function regexes:
returns the return-type capture and consumed length.  `\S+` is greedy;
since the character after a maximal non-whitespace run can never be `:`,
backtracking stops at the last `:` inside the run (which must leave a
nonempty stem). When the arrow branch fails the optional group matches
empty and `:` must follow immediately. -/
def matchRetColon (cs : List Char) : Option (Option (List Char) × Nat) :=
  let ws1 := cs.takeWhile isJsWs
  let attempt : Option (Option (List Char) × Nat) :=
    match cs.drop ws1.length with
    | '-' :: '>' :: r2 =>
      let ws2 := r2.takeWhile isJsWs
      let run := (r2.drop ws2.length).takeWhile (fun c => !(isJsWs c))
      match (List.range run.length).filter (fun k => run.get? k = some ':') with
      | [] => none
      | ks =>
        match ks.getLast? with
        | some k =>
          if 1 ≤ k then some (some (run.take k), ws1.length + 2 + ws2.length + k + 1)
          else none
        | none => none
    | _ => none
  match attempt with
  | some r => some r
  | none =>
    match cs with
    | ':' :: _ => some (none, 1)
    | _ => none

/-- Matcher for `/^(async\s+)?def\s+(\w+)\s*\(([^)]*)\)(?:\s*->\s*(\S+))?:/`
at one anchor position: (isAsync, name, raw parameter text, return type)
plus match length.  If `async` + whitespace is present but the rest fails,
the fallback without the group also fails (it would need `def` where
`async` stands), so no retry is modelled. -/
def matchFuncAt (cs : List Char) :
    Option ((Bool × List Char × List Char × Option (List Char)) × Nat) :=
  let hasAsync := cs.take 5 = "async".data &&
    ((cs.drop 5).takeWhile isJsWs) ≠ ([] : List Char)
  let aLen := if hasAsync then 5 + ((cs.drop 5).takeWhile isJsWs).length else 0
  let cs1 := cs.drop aLen
  if cs1.take 3 = "def".data then
    let r1 := cs1.drop 3
    let ws := r1.takeWhile isJsWs
    if ws = [] then none else
    let r2 := r1.drop ws.length
    let name := r2.takeWhile isWordChar
    if name = [] then none else
    let r3 := r2.drop name.length
    let ws2 := r3.takeWhile isJsWs
    match r3.drop ws2.length with
    | '(' :: r4 =>
      let params := r4.takeWhile (fun c => c ≠ ')')
      match r4.drop params.length with
      | ')' :: r5 =>
        match matchRetColon r5 with
        | some (ret, rlen) =>
          some ((hasAsync, name, params, ret),
            aLen + 3 + ws.length + name.length + ws2.length + 1 + params.length + 1 + rlen)
        | none => none
      | _ => none
    | _ => none
  else none

/-- `line.match(/^\s+(async\s+)?def\s+(\w+)\s*\(([^)]*)\)(?:\s*->\s*(\S+))?:/)`
used on single class-body lines: a nonempty indent followed by the same
pattern as `matchFuncAt`. -/
def matchMethodLine (line : List Char) :
    Option (Bool × List Char × List Char × Option (List Char)) :=
  let ws0 := line.takeWhile isJsWs
  if ws0 = [] then none
  else (matchFuncAt (line.drop ws0.length)).map (·.1)

/-- Visibility classification of `extractClassMethods`: a leading double
underscore without a trailing one is private; any other leading underscore
(dunder names included) is protected; else public. -/
def pyVisibility (nm : List Char) : Visibility :=
  if startsWithL nm "__".data && !(endsWithL nm "__".data) then .priv
  else if startsWithL nm "_".data then .prot
  else .pub

/-- Matcher for `/^(\*{0,2}\w+)(?:\s*:\s*([^=]+))?(?:\s*=\s*(.+))?$/` on one
trimmed parameter.  Whitespace is inside `[^=]`, so the type group consumes
exactly the nonempty run of non-`=` characters after the colon (the raw
capture differs from that run only in leading whitespace, which the caller
trims away).  The model assumes the parameter text has no embedded
newline, which holds whenever the `def` header sits on one source line. -/
def matchParamTail (pos : List Char) : Option (Option (List Char)) :=
  match pos with
  | [] => some none
  | _ =>
    let ws := pos.takeWhile isJsWs
    match pos.drop ws.length with
    | '=' :: r =>
      let ws2 := r.takeWhile isJsWs
      let d := r.drop ws2.length
      if d = [] then none else some (some d)
    | _ => none

def matchParamPattern (t : List Char) :
    Option (List Char × Option (List Char) × Option (List Char)) :=
  let stars := (t.takeWhile (· = '*')).take 2
  let rest0 := t.drop stars.length
  let word := rest0.takeWhile isWordChar
  if word = [] then none else
  let name := stars ++ word
  let rest1 := rest0.drop word.length
  let ws1 := rest1.takeWhile isJsWs
  match rest1.drop ws1.length with
  | ':' :: r2 =>
    let chunk := r2.takeWhile (fun c => c ≠ '=')
    if chunk = [] then none
    else
      match matchParamTail (r2.drop chunk.length) with
      | some d => some (name, some chunk, d)
      | none => none
  | _ =>
    match matchParamTail rest1 with
    | some d => some (name, none, d)
    | none => none

/-- `parsePythonParams`: split on commas, trim, drop empty / `self` / `cls`
parts, and parse each remaining part; parts the pattern rejects are
silently dropped.  Recorded type and default are the trimmed captures. -/
def parsePythonParams (paramsStr : List Char) : List ParamInfo :=
  if jsTrimL paramsStr = [] then []
  else
    (splitOnChar ',' paramsStr).filterMap (fun part =>
      let t := jsTrimL part
      if t = [] || t = "self".data || t = "cls".data then none
      else
        match matchParamPattern t with
        | some (name, ty, d) =>
          some { name := strOf name,
                 type := ty.map (fun c => strOf (jsTrimL c)),
                 isOptional := d.isSome,
                 defaultValue := d.map (fun c => strOf (jsTrimL c)) }
        | none => none)

/-- `extractClassMethods`: scan each class-body line for a method header. -/
def extractClassMethods (classBody : List (List Char)) : List MethodInfo :=
  classBody.filterMap (fun line =>
    match matchMethodLine line with
    | none => none
    | some (isAsync, name, paramsStr, retType) =>
      some { name := strOf name,
             params := parsePythonParams paramsStr,
             returnType := retType.map strOf,
             isAsync := isAsync,
             isStatic := startsWithL (jsTrimL paramsStr) "cls".data ||
               includesL line "@staticmethod".data,
             visibility := pyVisibility name })

/-- `line.match(/^\s+def\s+__init__\s*\(/)`: the `__init__` header test of
`extractClassProperties`. -/
def isInitHeader (line : List Char) : Bool :=
  let ws := line.takeWhile isJsWs
  if ws = [] then false else
  let r := line.drop ws.length
  if r.take 3 = "def".data then
    let r1 := r.drop 3
    let ws1 := r1.takeWhile isJsWs
    if ws1 = [] then false else
    let r2 := r1.drop ws1.length
    if r2.take 8 = "__init__".data then
      let r3 := r2.drop 8
      (r3.drop (r3.takeWhile isJsWs).length).head? = some '('
    else false
  else false

/-- `line.match(/^\s+def\s+/)`: nonempty indent, `def`, then at least one
whitespace character. -/
def isIndentedDef (line : List Char) : Bool :=
  let ws := line.takeWhile isJsWs
  ws ≠ ([] : List Char) && (line.drop ws.length).take 3 = "def".data &&
    ((line.drop (ws.length + 3)).takeWhile isJsWs) ≠ ([] : List Char)

/-- The shared tail `\s*(?::\s*(\S+))?\s*=` of both property regexes,
applied right after the property name: returns the type capture.  In the
colon branch `\S+` is greedy and backtracks to the last `=` inside the
non-whitespace run unless the run is followed (after whitespace) by `=`. -/
def matchColonEq (r1 : List Char) : Option (Option (List Char)) :=
  let ws1 := r1.takeWhile isJsWs
  match r1.drop ws1.length with
  | ':' :: r2 =>
    let ws2 := r2.takeWhile isJsWs
    let run := (r2.drop ws2.length).takeWhile (fun c => !(isJsWs c))
    if run = [] then none
    else
      let afterRun := (r2.drop ws2.length).drop run.length
      if (afterRun.drop (afterRun.takeWhile isJsWs).length).head? = some '=' then
        some (some run)
      else
        match ((List.range run.length).filter (fun k => run.get? k = some '=')).getLast? with
        | some k => if 1 ≤ k then some (some (run.take k)) else none
        | none => none
  | '=' :: _ => some none
  | _ => none

/-- Anchored matcher for `/self\.(\w+)\s*(?::\s*(\S+))?\s*=/` at one
position; `searchFirst` turns it into the unanchored search the source
performs with `line.match`. -/
def matchSelfPropAt (cs : List Char) : Option (List Char × Option (List Char)) :=
  if cs.take 5 = "self.".data then
    let r0 := cs.drop 5
    let word := r0.takeWhile isWordChar
    if word = [] then none
    else
      match matchColonEq (r0.drop word.length) with
      | some ty => some (word, ty)
      | none => none
  else none

/-- `line.match(/^\s{4}(\w+)\s*(?::\s*(\S+))?\s*=/)`: exactly four leading
whitespace characters, then a name and the shared tail. -/
def matchClassLevelProp (line : List Char) : Option (List Char × Option (List Char)) :=
  if line.length ≥ 4 && (line.take 4).all isJsWs then
    let r0 := line.drop 4
    let word := r0.takeWhile isWordChar
    if word = [] then none
    else
      match matchColonEq (r0.drop word.length) with
      | some ty => some (word, ty)
      | none => none
  else none

/-- State of the `__init__` scan of `extractClassProperties`. -/
structure PyPropState where
  inInit : Bool
  initIndent : Nat
  seen : List (List Char)
  props : List PropertyInfo

/-- One line of the first pass of `extractClassProperties` (the `self.x =`
assignments tracked inside `__init__`). -/
def pyPropStep (st : PyPropState) (line : List Char) : PyPropState :=
  if isInitHeader line then
    { st with inInit := true, initIndent := indentOf line }
  else if st.inInit then
    if (isBlankL line = false && indentOf line = 0) ||
        (0 < indentOf line && indentOf line ≤ st.initIndent && isIndentedDef line) then
      { st with inInit := false }
    else
      match searchFirst matchSelfPropAt line with
      | some (nm, ty) =>
        if nm ∈ st.seen then st
        else
          let p : PropertyInfo :=
            { name := strOf nm, type := ty.map strOf,
              isOptional := false, isReadonly := false }
          { st with seen := st.seen ++ [nm], props := st.props ++ [p] }
      | none => st
  else st

/-- `extractClassProperties`: the `__init__` pass followed by a second pass
over 4-space-indented class-level assignments, de-duplicating by name via
the shared `seenProperties` set. -/
def extractClassProperties (classBody : List (List Char)) : List PropertyInfo :=
  let st1 := classBody.foldl pyPropStep ⟨false, 0, [], []⟩
  let st2 := classBody.foldl (fun st line =>
    match matchClassLevelProp line with
    | some (nm, ty) =>
      if nm ∈ st.seen || includesL line "def ".data then st
      else
        let p : PropertyInfo :=
          { name := strOf nm, type := ty.map strOf,
            isOptional := false, isReadonly := false }
        { st with seen := st.seen ++ [nm], props := st.props ++ [p] }
    | none => st) st1
  st2.props

/-- The inner `j` loop of `extractDocstring`: accumulate lines until one
contains the closing quote. -/
def docstringLoop (quote : List Char) (acc : List Char) :
    List (List Char) → Option (List Char)
  | [] => none
  | next :: rest =>
    match indexOfSub next quote with
    | some idx => some (jsTrimL (acc ++ '\n' :: next.take idx))
    | none => docstringLoop quote (acc ++ '\n' :: jsTrimL next) rest

/-- One iteration of the outer `i` loop of `extractDocstring` at block
index `i`. -/
def tryDocstringAt (block : List (List Char)) (i : Nat) : Option (List Char) :=
  match block[i]? with
  | none => none
  | some raw =>
    let line := jsTrimL raw
    if startsWithL line "\"\"\"".data || startsWithL line "'''".data then
      let quote := line.take 3
      if endsWithL line quote && line.length > 6 then
        some (jsTrimL ((line.drop 3).take (line.length - 6)))
      else docstringLoop quote (line.drop 3) (block.drop (i + 1))
    else none

/-- `extractDocstring`: inspect block lines 1 to `min(length, 5) - 1` for a
triple-quoted opener; an opener whose closing quote is never found falls
through to the next candidate line. -/
def extractDocstring (block : List (List Char)) : Option (List Char) :=
  (List.range' 1 (min block.length 5 - 1)).findSome? (tryDocstringAt block)

/-- `extractPythonClasses`: every match of the class regex becomes a
`ClassInfo`; the block starting at the header line fixes `endLine` and is
scanned for methods, properties, and a docstring. -/
def extractPythonClasses (code : List Char) (lines : List (List Char)) : List ClassInfo :=
  (execAnchored matchClassAt code).map (fun pm =>
    let startLine := countNl (code.take pm.1) + 1
    let inheritance := pm.2.2
    let bases := match inheritance with
      | none => []
      | some inh => ((splitOnChar ',' inh).map jsTrimL).filter (· ≠ ([] : List Char))
    let classBody := extractPythonBlock lines (startLine - 1)
    { name := strOf pm.2.1,
      superClass := bases.head?.map strOf,
      impl := if bases.length > 1 then some ((bases.drop 1).map strOf) else none,
      properties := extractClassProperties classBody,
      methods := extractClassMethods classBody,
      comments := (extractDocstring classBody).map (fun d => [strOf d]),
      startLine := startLine,
      endLine := startLine + classBody.length - 1 })

/-- `extractPythonFunctions`: every match of the function regex whose
source line does not begin with whitespace becomes a `FunctionInfo`. -/
def extractPythonFunctions (code : List Char) (lines : List (List Char)) :
    List FunctionInfo :=
  (execAnchored matchFuncAt code).filterMap (fun pm =>
    let startLine := countNl (code.take pm.1) + 1
    let lineContent := lines.getD (startLine - 1) []
    let startsIndented := match lineContent.head? with
      | some c => isJsWs c
      | none => false
    if lineContent ≠ ([] : List Char) && startsIndented then none
    else
      let funcBody := extractPythonBlock lines (startLine - 1)
      some { name := strOf pm.2.2.1,
             params := parsePythonParams pm.2.2.2.1,
             returnType := pm.2.2.2.2.map strOf,
             isAsync := pm.2.1,
             isExported := true,
             comments := (extractDocstring funcBody).map (fun d => [strOf d]),
             startLine := startLine,
             endLine := startLine + funcBody.length - 1 })

/-- Anchored matcher for `/^import\s+(\S+)(?:\s+as\s+(\S+))?/`: source and
optional alias plus match length. -/
def matchSimpleImportAt (cs : List Char) :
    Option ((List Char × Option (List Char)) × Nat) :=
  if cs.take 6 = "import".data then
    let r0 := cs.drop 6
    let ws := r0.takeWhile isJsWs
    if ws = [] then none else
    let r1 := r0.drop ws.length
    let src := r1.takeWhile (fun c => !(isJsWs c))
    if src = [] then none else
    let baseLen := 6 + ws.length + src.length
    let r2 := r1.drop src.length
    let ws2 := r2.takeWhile isJsWs
    let r3 := r2.drop ws2.length
    if ws2 ≠ ([] : List Char) && r3.take 2 = "as".data then
      let r4 := r3.drop 2
      let ws3 := r4.takeWhile isJsWs
      let aliasNm := (r4.drop ws3.length).takeWhile (fun c => !(isJsWs c))
      if ws3 ≠ ([] : List Char) && aliasNm ≠ ([] : List Char) then
        some ((src, some aliasNm), baseLen + ws2.length + 2 + ws3.length + aliasNm.length)
      else some ((src, none), baseLen)
    else some ((src, none), baseLen)
  else none

/-- Anchored matcher for `/^from\s+(\S+)\s+import\s+(.+)$/`: source and the
raw specifier text plus match length.  `\s+` after `import` may swallow
newlines; when nothing but whitespace follows, the engine backtracks one
whitespace character (which must not be a newline) into the `(.+)`
capture. -/
def matchFromImportAt (cs : List Char) : Option ((List Char × List Char) × Nat) :=
  if cs.take 4 = "from".data then
    let r0 := cs.drop 4
    let ws1 := r0.takeWhile isJsWs
    if ws1 = [] then none else
    let r1 := r0.drop ws1.length
    let src := r1.takeWhile (fun c => !(isJsWs c))
    if src = [] then none else
    let r2 := r1.drop src.length
    let ws2 := r2.takeWhile isJsWs
    if ws2 = [] then none else
    let r3 := r2.drop ws2.length
    if r3.take 6 = "import".data then
      let r4 := r3.drop 6
      let ws3 := r4.takeWhile isJsWs
      if ws3 = [] then none else
      let afterW := r4.drop ws3.length
      let spec0 := afterW.takeWhile (fun c => c ≠ '\n')
      let totalLen := 4 + ws1.length + src.length + ws2.length + 6 + ws3.length + spec0.length
      if spec0 ≠ ([] : List Char) then some ((src, spec0), totalLen)
      else if ws3.length ≥ 2 && ws3.getLast? ≠ some '\n' then
        match ws3.getLast? with
        | some c => some ((src, [c]), totalLen)
        | none => none
      else none
    else none
  else none

/-- Anchored matcher for `/(\S+)\s+as\s+(\S+)/`; `searchFirst` supplies the
unanchored search of `s.match`.  The leading `\S+` cannot usefully
backtrack (the boundary character would be non-whitespace where `\s+` is
required), so only the maximal run is tried. -/
def matchAsAliasAt (cs : List Char) : Option (List Char) :=
  let run := cs.takeWhile (fun c => !(isJsWs c))
  if run = [] then none else
  let r1 := cs.drop run.length
  let ws1 := r1.takeWhile isJsWs
  if ws1 = [] then none else
  let r2 := r1.drop ws1.length
  if r2.take 2 = "as".data then
    let r3 := r2.drop 2
    let ws2 := r3.takeWhile isJsWs
    if ws2 = [] then none else
    let aliasNm := (r3.drop ws2.length).takeWhile (fun c => !(isJsWs c))
    if aliasNm = [] then none else some aliasNm
  else none

/-- The specifier post-processing of the `from` import branch: split on
commas, trim, drop empty and `#`-starting parts, and replace `x as y`
parts by the alias. -/
def parseFromSpecifiers (spec : List Char) : List (List Char) :=
  ((((splitOnChar ',' spec).map jsTrimL).filter
      (fun s => s ≠ ([] : List Char) && !(startsWithL s "#".data))).map
    (fun s => (searchFirst matchAsAliasAt s).getD s))

/-- `extractPythonImports`: the two regex passes, `import x [as y]` first,
then `from x import a, b [as c]`. -/
def extractPythonImports (code : List Char) : List ImportInfo :=
  ((execAnchored matchSimpleImportAt code).map (fun pm =>
    { source := strOf pm.2.1,
      specifiers := [strOf (pm.2.2.getD pm.2.1)],
      isDefault := true })) ++
  ((execAnchored matchFromImportAt code).map (fun pm =>
    { source := strOf pm.2.1,
      specifiers := (parseFromSpecifiers pm.2.2).map strOf,
      isDefault := false }))

/-- One match of the docstring regex `/"""([\s\S]*?)"""|'''([\s\S]*?)'''/g`.
`isDq` records which alternative matched: `true` for `"""` (capture group
1 participates, group 2 is undefined), `false` for `'''` (group 1 is
undefined, group 2 participates). -/
structure DocMatch where
  pos : Nat
  len : Nat
  content : List Char
  isDq : Bool
deriving Repr

/-- All matches of the global docstring regex: at each position try the
`"""` alternative then the `'''` alternative (lazy body, so the nearest
closing quote wins); a match advances past itself, otherwise scanning
advances one character.  `fuel` only bounds the recursion and starts at
the text length, which the 1-character minimum advance never exhausts. -/
def scanDocstringsGo : Nat → List Char → Nat → List DocMatch
  | 0, _, _ => []
  | _, [], _ => []
  | fuel + 1, cs, pos =>
    if cs.take 3 = "\"\"\"".data then
      match indexOfSub (cs.drop 3) "\"\"\"".data with
      | some k =>
        ⟨pos, k + 6, (cs.drop 3).take k, true⟩ ::
          scanDocstringsGo fuel (cs.drop (k + 6)) (pos + k + 6)
      | none => scanDocstringsGo fuel cs.tail (pos + 1)
    else if cs.take 3 = "'''".data then
      match indexOfSub (cs.drop 3) "'''".data with
      | some k =>
        ⟨pos, k + 6, (cs.drop 3).take k, false⟩ ::
          scanDocstringsGo fuel (cs.drop (k + 6)) (pos + k + 6)
      | none => scanDocstringsGo fuel cs.tail (pos + 1)
    else scanDocstringsGo fuel cs.tail (pos + 1)

def scanDocstrings (code : List Char) : List DocMatch :=
  scanDocstringsGo code.length code 0

/-- One block comment of the docstring loop:
`const content = (match[1] || match[2]).trim()`.  The capture of the
non-matching alternative is `undefined`; for a `"""` match with an EMPTY
body, `match[1]` is the falsy `''`, `match[1] || match[2]` evaluates to
`undefined`, and `.trim()` raises a TypeError, which nothing in the
Python analysis path catches.  (A `'''` match is safe either way:
`undefined || ''` is `''`.)  The thrown exception is modelled as
`Except.error` with the V8 TypeError message. -/
def pyBlockComment (code : List Char) (m : DocMatch) : Except String CommentInfo :=
  if m.isDq ∧ m.content = [] then
    .error "TypeError: Cannot read properties of undefined (reading 'trim')"
  else
    .ok { type := CommentKind.block,
          content := strOf (jsTrimL m.content),
          startLine := countNl (code.take m.pos) + 1,
          endLine := countNl (code.take (m.pos + m.len)) + 1 }

/-- The `while (match = docstringRegex.exec(code))` loop: each match is
turned into a block comment, and the first throwing match aborts the
whole analysis. -/
def pyDocLoop (code : List Char) : List DocMatch → Except String (List CommentInfo)
  | [] => .ok []
  | m :: ms =>
    match pyBlockComment code m with
    | .ok c => (pyDocLoop code ms).map (fun cs => c :: cs)
    | .error e => .error e

/-- `extractPythonComments`: `#` line comments (by trimmed line) followed
by triple-quoted block comments with line spans computed from the match
offsets.  The docstring loop can throw (see `pyBlockComment`); a throw
at any match discards everything, like the JavaScript exception. -/
def extractPythonComments (code : List Char) (lines : List (List Char)) :
    Except String (List CommentInfo) :=
  (pyDocLoop code (scanDocstrings code)).map (fun blocks =>
    (lines.enum.filterMap (fun il =>
      let t := jsTrimL il.2
      if startsWithL t "#".data then
        some { type := CommentKind.line,
               content := strOf (jsTrimL (t.drop 1)),
               startLine := il.1 + 1, endLine := il.1 + 1 }
      else none)) ++ blocks)

/-- `parsePython(code, fileName)`: the full indentation-strategy
analysis.  The comment pass can throw a TypeError (see
`pyBlockComment`), which propagates out of `parsePython`: nothing on the
Python path catches it. -/
def parsePython (code : List Char) (fileName : String) :
    Except String CodeMetadata :=
  (extractPythonComments code (splitNl code)).map (fun comments =>
    { fileName := fileName,
      language := "python",
      classes := extractPythonClasses code (splitNl code),
      functions := extractPythonFunctions code (splitNl code),
      interfaces := [],
      imports := extractPythonImports code,
      exports := [],
      comments := comments,
      rawCode := strOf code })

/-!
## JavaScript / TypeScript parser (`src/lib/code-parser/js-parser.ts`)

The Babel parse itself is an external library call; it is modelled as a
parameter `jsParse : List Char → Option BProgram` where `none` is a parse
exception (caught by the source's `try`/`catch`, which then returns the
still-empty metadata).  The AST node shapes below carry exactly the fields
the traversal reads.
-/

/-- `node.loc` of a Babel node (1-based start/end lines). -/
structure BLoc where
  startLine : Nat
  endLine : Nat
deriving DecidableEq, Repr

/-- `node.loc?.start.line || 0`. -/
def locStart : Option BLoc → Nat
  | some l => l.startLine
  | none => 0

/-- `node.loc?.end.line || 0`. -/
def locEnd : Option BLoc → Nat
  | some l => l.endLine
  | none => 0

/-- A Babel comment node. -/
structure BCommentNode where
  isLine : Bool
  value : String
  loc : Option BLoc
deriving DecidableEq, Repr

/-- The TS type shapes `extractTypeString` distinguishes. -/
inductive BTSType
  | strKw | numKw | boolKw | anyKw | voidKw | nullKw | undefinedKw | unknownKw | neverKw
  | typeRef (name : Option String) (args : List BTSType)
  | arr (elem : BTSType)
  | union (types : List BTSType)
  | funcTy (paramNames : List (Option String)) (retTy : Option BTSType)
  | typeLit
  | otherTy

/-- `Array.prototype.join(sep)`. -/
def joinSep (sep : String) : List String → String
  | [] => ""
  | [s] => s
  | s :: rest => s ++ sep ++ joinSep sep rest

mutual

/-- `extractTypeString`: render a TS type annotation as a readable string;
unrecognized shapes render as the literal `unknown`. -/
def extractTypeString : BTSType → String
  | .strKw => "string"
  | .numKw => "number"
  | .boolKw => "boolean"
  | .anyKw => "any"
  | .voidKw => "void"
  | .nullKw => "null"
  | .undefinedKw => "undefined"
  | .unknownKw => "unknown"
  | .neverKw => "never"
  | .typeRef none _ => "unknown"
  | .typeRef (some n) args =>
    if args.length > 0 then
      n ++ "<" ++ joinSep ", " (extractTypeStringList args) ++ ">"
    else n
  | .arr elem => extractTypeString elem ++ "[]"
  | .union types => joinSep " | " (extractTypeStringList types)
  | .funcTy paramNames retTy =>
    "(" ++ joinSep ", " (paramNames.map (fun p => p.getD "arg")) ++ ") => " ++
      (match retTy with
       | some t => extractTypeString t
       | none => "void")
  | .typeLit => "object"
  | .otherTy => "unknown"

def extractTypeStringList : List BTSType → List String
  | [] => []
  | t :: ts => extractTypeString t :: extractTypeStringList ts

end

/-- A member key: `Identifier`, `PrivateName`, or anything else. -/
inductive BKey
  | identK (n : String)
  | privK (n : String)
  | otherK
deriving DecidableEq, Repr

/-- Key rendering shared by class properties and methods. -/
def keyName : BKey → String
  | .identK n => n
  | .privK n => "#" ++ n
  | .otherK => "unknown"

/-- A function parameter node as `extractParams` reads it. -/
inductive BParam
  | ident (name : String) (optional : Bool) (ty : Option BTSType)
  | assign (leftIdent : Option String)
  | rest (argIdent : Option String)
  | otherP

/-- `extractParams`. -/
def extractParams (params : List BParam) : List ParamInfo :=
  params.map fun p =>
    match p with
    | .ident n opt ty => { name := n, isOptional := opt, type := ty.map extractTypeString }
    | .assign (some n) =>
      { name := n, isOptional := true, defaultValue := some "has default" }
    | .rest (some n) => { name := "..." ++ n, isOptional := false }
    | _ => { name := "unknown", isOptional := false }

/-- A class member node. -/
inductive BClassMember
  | propM (key : BKey) (readonly : Bool) (ty : Option BTSType)
  | methodM (key : BKey) (params : List BParam) (isAsync isStatic : Bool)
      (isPrivateMethod : Bool) (accessibility : Option Visibility) (retTy : Option BTSType)
  | otherM

/-- A `ClassDeclaration` node. -/
structure BClassNode where
  idName : Option String
  loc : Option BLoc
  superIdent : Option String
  impls : Option (List (Option String))
  members : List BClassMember

/-- A `FunctionDeclaration` node. -/
structure BFuncNode where
  idName : Option String
  loc : Option BLoc
  params : List BParam
  isAsync : Bool
  returnType : Option BTSType

/-- An arrow-function or function-expression initializer node. -/
structure BFuncExprNode where
  loc : Option BLoc
  params : List BParam
  isAsync : Bool
  returnType : Option BTSType

/-- One declarator of a `VariableDeclaration`: its identifier (when the
binding target is a plain identifier) and its initializer when that is an
arrow function or function expression. -/
structure BVarDecl where
  idName : Option String
  initFn : Option BFuncExprNode

/-- A `TSInterfaceDeclaration` member. -/
inductive BIfaceMember
  | propSig (key : Option String) (optional readonly : Bool) (ty : Option BTSType)
  | methodSig (key : Option String) (params : Option (List BParam)) (retTy : Option BTSType)
  | otherI

/-- A `TSInterfaceDeclaration` node. -/
structure BIfaceNode where
  idName : String
  loc : Option BLoc
  extendsList : Option (List (Option String))
  members : List BIfaceMember

/-- An import specifier. -/
inductive BImportSpec
  | dflt (localName : String)
  | named (importedName : String)
  | nmspace (localName : String)
deriving DecidableEq, Repr

/-- An `ImportDeclaration` node. -/
structure BImportDecl where
  source : String
  specifiers : List BImportSpec
deriving DecidableEq, Repr

/-- The parent node kind the export checks dispatch on. -/
inductive BParentKind | program | exportNamed | exportDefault
deriving DecidableEq, Repr

/-- A top-level statement as the traversal sees it.  Nested declarations
would be visited with a non-export parent and contribute entries of the
same shapes, so they are modelled at this level with `parent = program`. -/
inductive BStmt
  | importS (d : BImportDecl)
  | classS (parent : BParentKind) (c : BClassNode)
  | funcS (parent : BParentKind) (f : BFuncNode)
  | varS (parent : BParentKind) (decls : List BVarDecl)
  | ifaceS (parent : BParentKind) (i : BIfaceNode)
  | exportDefaultIdent (n : String)
  | exportNamedSpecs (specs : List String)
  | otherS

/-- A parsed program: its comment list and statements. -/
structure BProgram where
  comments : List BCommentNode
  stmts : List BStmt

/-- The per-line deletion of `/^\*+\s*/gm` used on associated comments: at
each line-start anchor, a run of `*` and the following whitespace run are
removed; the anchor state after a removal depends on whether the removed
whitespace ended with a newline. -/
def stripStarsGo : Nat → Bool → List Char → List Char
  | 0, _, cs => cs
  | _ + 1, _, [] => []
  | fuel + 1, atStart, c :: rest =>
    if atStart && c = '*' then
      let stars := (c :: rest).takeWhile (· = '*')
      let afterStars := (c :: rest).drop stars.length
      let ws := afterStars.takeWhile isJsWs
      stripStarsGo fuel (ws.getLast? == some '\n') (afterStars.drop ws.length)
    else
      c :: stripStarsGo fuel (c == '\n') rest

def stripLeadingStars (cs : List Char) : List Char := stripStarsGo cs.length true cs

/-- `findAssociatedComments`: comments ending exactly 1 or 2 lines above
the declaration line, with leading stars stripped and trimmed.  The line
arithmetic is over integers as in JavaScript. -/
def findAssociatedComments (line : Nat) (comments : List CommentInfo) : List String :=
  (comments.filter (fun c =>
      (c.endLine : Int) = (line : Int) - 1 ∨ (c.endLine : Int) = (line : Int) - 2)).map
    (fun c => strOf (jsTrimL (stripLeadingStars c.content.data)))

/-- The comment mapping at the top of `parseJavaScript`. -/
def commentInfoOfNode (c : BCommentNode) : CommentInfo :=
  { type := if c.isLine then CommentKind.line
            else if startsWithL c.value.data "*".data then CommentKind.jsdoc
            else CommentKind.block,
    content := strOf (jsTrimL c.value.data),
    startLine := locStart c.loc,
    endLine := locEnd c.loc }

/-- `extractClassInfo`. -/
def extractClassInfo (node : BClassNode) (comments : List CommentInfo) : ClassInfo :=
  { name := node.idName.getD "Anonymous",
    superClass := node.superIdent,
    impl := node.impls.map (fun l => l.map (fun o => o.getD "unknown")),
    properties := node.members.filterMap (fun m =>
      match m with
      | .propM k r ty =>
        some { name := keyName k, isOptional := false, isReadonly := r,
               type := ty.map extractTypeString }
      | _ => none),
    methods := node.members.filterMap (fun m =>
      match m with
      | .methodM k ps a s pm acc rt =>
        some { name := keyName k, params := extractParams ps, isAsync := a,
               isStatic := s,
               visibility := if pm then Visibility.priv else acc.getD Visibility.pub,
               returnType := rt.map extractTypeString }
      | _ => none),
    comments := some (findAssociatedComments (locStart node.loc) comments),
    startLine := locStart node.loc,
    endLine := locEnd node.loc }

/-- `extractFunctionInfo`. -/
def extractFunctionInfo (node : BFuncNode) (comments : List CommentInfo) : FunctionInfo :=
  { name := node.idName.getD "anonymous",
    params := extractParams node.params,
    returnType := node.returnType.map extractTypeString,
    isAsync := node.isAsync,
    isExported := false,
    comments := some (findAssociatedComments (locStart node.loc) comments),
    startLine := locStart node.loc,
    endLine := locEnd node.loc }

/-- `extractArrowFunctionInfo`. -/
def extractArrowFunctionInfo (name : String) (node : BFuncExprNode)
    (comments : List CommentInfo) : FunctionInfo :=
  { name := name,
    params := extractParams node.params,
    returnType := node.returnType.map extractTypeString,
    isAsync := node.isAsync,
    isExported := false,
    comments := some (findAssociatedComments (locStart node.loc) comments),
    startLine := locStart node.loc,
    endLine := locEnd node.loc }

/-- `extractInterfaceInfo`. -/
def extractInterfaceInfo (node : BIfaceNode) (comments : List CommentInfo) : InterfaceInfo :=
  { name := node.idName,
    ext := node.extendsList.map (fun l => l.map (fun o => o.getD "unknown")),
    properties := node.members.filterMap (fun m =>
      match m with
      | .propSig k opt r ty =>
        some { name := k.getD "unknown", isOptional := opt, isReadonly := r,
               type := ty.map extractTypeString }
      | _ => none),
    methods := node.members.filterMap (fun m =>
      match m with
      | .methodSig k ps rt =>
        some { name := k.getD "unknown",
               params := match ps with
                 | some l => extractParams l
                 | none => [],
               returnType := rt.map extractTypeString }
      | _ => none),
    comments := some (findAssociatedComments (locStart node.loc) comments),
    startLine := locStart node.loc,
    endLine := locEnd node.loc }

/-- The `ImportDeclaration` visitor body. -/
def importInfoOfNode (d : BImportDecl) : ImportInfo :=
  d.specifiers.foldl (fun ii s =>
    match s with
    | .dflt n => { ii with isDefault := true, specifiers := ii.specifiers ++ [n] }
    | .named n => { ii with specifiers := ii.specifiers ++ [n] }
    | .nmspace n => { ii with specifiers := ii.specifiers ++ ["* as " ++ n] })
    { source := d.source, specifiers := [], isDefault := false }

/-- One declarator of the `VariableDeclaration` visitor: identifier
bindings whose initializer is an arrow function or function expression
become `FunctionInfo` entries (exported when the parent is a named
export). -/
def visitVarDecl (parent : BParentKind) (m : CodeMetadata) (d : BVarDecl) : CodeMetadata :=
  match d.idName, d.initFn with
  | some n, some fe =>
    let fi := extractArrowFunctionInfo n fe m.comments
    let m1 := { m with functions := m.functions ++ [fi] }
    match parent with
    | .exportNamed =>
      { m1 with exports := m1.exports ++ [⟨fi.name, false, ExportKind.function'⟩] }
    | _ => m1
  | _, _ => m

/-- One traversal visitor step: dispatch on the node kind and append to
the metadata collections, exactly as the visitor object does. -/
def visitStmt (md : CodeMetadata) : BStmt → CodeMetadata
  | .importS d => { md with imports := md.imports ++ [importInfoOfNode d] }
  | .classS parent c =>
    let ci := extractClassInfo c md.comments
    let md1 := { md with classes := md.classes ++ [ci] }
    match parent with
    | .exportDefault =>
      { md1 with exports := md1.exports ++ [⟨ci.name, true, ExportKind.class'⟩] }
    | .exportNamed =>
      { md1 with exports := md1.exports ++ [⟨ci.name, false, ExportKind.class'⟩] }
    | .program => md1
  | .funcS parent f =>
    match f.idName with
    | none => md
    | some _ =>
      let fi := extractFunctionInfo f md.comments
      let md1 := { md with functions := md.functions ++ [fi] }
      match parent with
      | .exportDefault =>
        { md1 with exports := md1.exports ++ [⟨fi.name, true, ExportKind.function'⟩] }
      | .exportNamed =>
        { md1 with exports := md1.exports ++ [⟨fi.name, false, ExportKind.function'⟩] }
      | .program => md1
  | .varS parent decls =>
    match parent with
    | .exportDefault => md
    | _ => decls.foldl (visitVarDecl parent) md
  | .ifaceS parent i =>
    let ii := extractInterfaceInfo i md.comments
    let md1 := { md with interfaces := md.interfaces ++ [ii] }
    match parent with
    | .exportNamed =>
      { md1 with exports := md1.exports ++ [⟨ii.name, false, ExportKind.interface'⟩] }
    | _ => md1
  | .exportDefaultIdent n =>
    { md with exports := md.exports ++ [⟨n, true, ExportKind.variable'⟩] }
  | .exportNamedSpecs specs =>
    { md with exports := md.exports ++ specs.map (⟨·, false, ExportKind.variable'⟩) }
  | .otherS => md

/-- The still-empty metadata record built at the top of both parsers and
of `parseCode`'s degraded path. -/
def emptyMetadata (fileName language : String) (code : List Char) : CodeMetadata :=
  { fileName := fileName, language := language, classes := [], functions := [],
    interfaces := [], imports := [], exports := [], comments := [],
    rawCode := strOf code }

/-- `parseJavaScript(code, fileName, language)` with the Babel parse
abstracted as `parseResult`: `none` models a parse exception, which the
source catches, returning the metadata as built so far (still empty). -/
def parseJavaScript (parseResult : Option BProgram) (code : List Char)
    (fileName language : String) : CodeMetadata :=
  let base := emptyMetadata fileName language code
  match parseResult with
  | none => base
  | some ast =>
    let withComments := { base with comments := ast.comments.map commentInfoOfNode }
    ast.stmts.foldl visitStmt withComments

/-!
## Language dispatch (`src/lib/code-parser/index.ts`)
-/

/-- The extension lookup table. -/
def EXTENSION_MAP : List (String × String) :=
  [(".js", "javascript"), (".jsx", "javascript"), (".ts", "typescript"),
   (".tsx", "typescript"), (".py", "python")]

/-- `String.prototype.lastIndexOf` for one character: `-1` when absent. -/
def lastIndexOfChar (cs : List Char) (c : Char) : Int :=
  match (List.range cs.length).filter (fun i => cs.get? i = some c) |>.getLast? with
  | some i => (i : Int)
  | none => -1

/-- `s.slice(i)` with JavaScript negative-index semantics. -/
def jsSliceFrom (cs : List Char) (i : Int) : List Char :=
  if i < 0 then cs.drop (max (cs.length + i) 0).toNat
  else cs.drop i.toNat

/-- `getLanguageFromFileName`: slice from the last dot (from the last
character when there is no dot), lowercase, and look up. -/
def getLanguageFromFileName (fileName : String) : Option String :=
  let cs := fileName.data
  let ext := strOf ((jsSliceFrom cs (lastIndexOfChar cs '.')).map Char.toLower)
  (EXTENSION_MAP.find? (fun e => e.1 = ext)).map (·.2)

def SUPPORTED_LANGUAGES : List String := ["javascript", "typescript", "python"]

def isLanguageSupported (l : String) : Bool := SUPPORTED_LANGUAGES.contains l

/-- `language || getLanguageFromFileName(fileName)` (an empty explicit
language string is falsy). -/
def detectLanguage (fileName : String) (language : Option String) : Option String :=
  match language with
  | some l => if l = "" then getLanguageFromFileName fileName else some l
  | none => getLanguageFromFileName fileName

/-- Decidable equality for thrown-or-value results. -/
instance {ε α : Type} [DecidableEq ε] [DecidableEq α] : DecidableEq (Except ε α) :=
  fun a b =>
  match a, b with
  | .ok x, .ok y =>
    if h : x = y then isTrue (by rw [h]) else isFalse (fun hc => h (Except.ok.inj hc))
  | .ok _, .error _ => isFalse (fun hc => Except.noConfusion hc)
  | .error _, .ok _ => isFalse (fun hc => Except.noConfusion hc)
  | .error e, .error f =>
    if h : e = f then isTrue (by rw [h]) else isFalse (fun hc => h (Except.error.inj hc))

/-- `parseCode(code, fileName, language?)`: dispatch on the detected
language; unknown or unsupported languages take the degraded empty path.
The JS/TS path and the degraded paths cannot throw, but the Python path
can: `parsePython`'s comment pass raises a TypeError on an empty `"""`
docstring match, and `parseCode` has no catch around it, so that
exception escapes the entry point (modelled as `Except.error`). -/
def parseCode (jsParse : List Char → Option BProgram) (code : List Char)
    (fileName : String) (language : Option String) : Except String CodeMetadata :=
  match detectLanguage fileName language with
  | none => .ok (emptyMetadata fileName "unknown" code)
  | some lang =>
    if isLanguageSupported lang then
      if lang = "python" then parsePython code fileName
      else .ok (parseJavaScript (jsParse code) code fileName lang)
    else .ok (emptyMetadata fileName lang code)

/-!
## Line-span invariants
-/

/-- Every line-spanned entity of a metadata record satisfies
`startLine ≤ endLine`. -/
def spansOk (md : CodeMetadata) : Prop :=
  (∀ c ∈ md.classes, c.startLine ≤ c.endLine) ∧
  (∀ f ∈ md.functions, f.startLine ≤ f.endLine) ∧
  (∀ i ∈ md.interfaces, i.startLine ≤ i.endLine) ∧
  (∀ c ∈ md.comments, c.startLine ≤ c.endLine)

/-- A Babel location is well-formed when its start line does not exceed its
end line; Babel guarantees this for every node it produces. -/
def locOk : Option BLoc → Prop
  | none => True
  | some l => l.startLine ≤ l.endLine

def stmtLocsOk : BStmt → Prop
  | .classS _ c => locOk c.loc
  | .funcS _ f => locOk f.loc
  | .varS _ decls => ∀ d ∈ decls, ∀ fe, d.initFn = some fe → locOk fe.loc
  | .ifaceS _ i => locOk i.loc
  | _ => True

/-- All locations of a parsed program are well-formed. -/
def bprogramOk (p : BProgram) : Prop :=
  (∀ c ∈ p.comments, locOk c.loc) ∧ (∀ s ∈ p.stmts, stmtLocsOk s)

theorem locStart_le_locEnd {o : Option BLoc} (h : locOk o) : locStart o ≤ locEnd o := by
  cases o with
  | none => simp [locStart, locEnd]
  | some l => simpa [locStart, locEnd] using h

theorem extractPythonBlock_length_pos {lines : List (List Char)} {i : Nat}
    (h : i < lines.length) : 1 ≤ (extractPythonBlock lines i).length := by
  unfold extractPythonBlock
  rw [List.drop_eq_getElem_cons h]
  simp

/-- The line index derived from any match offset is a valid index into the
split lines. -/
theorem startIndex_lt_lines (code : List Char) (pos : Nat) :
    countNl (code.take pos) < (splitNl code).length := by
  rw [length_splitNl]
  exact Nat.lt_succ_of_le (countNl_take_le code pos)

theorem pyClasses_spans (code : List Char) :
    ∀ c ∈ extractPythonClasses code (splitNl code), c.startLine ≤ c.endLine := by
  intro c hc
  rcases List.mem_map.mp hc with ⟨pm, _, rfl⟩
  simp only
  have hidx : countNl (code.take pm.1) + 1 - 1 < (splitNl code).length := by
    simpa using startIndex_lt_lines code pm.1
  have hlen := extractPythonBlock_length_pos hidx
  omega

theorem pyFunctions_spans (code : List Char) :
    ∀ f ∈ extractPythonFunctions code (splitNl code), f.startLine ≤ f.endLine := by
  intro f hf
  rcases List.mem_filterMap.mp hf with ⟨pm, _, hsome⟩
  simp only at hsome
  split at hsome
  · cases hsome
  · have hidx : countNl (code.take pm.1) + 1 - 1 < (splitNl code).length := by
      simpa using startIndex_lt_lines code pm.1
    have hlen := extractPythonBlock_length_pos hidx
    cases hsome
    simp only
    omega

theorem pyBlockComment_spans {code : List Char} {m : DocMatch} {c : CommentInfo}
    (h : pyBlockComment code m = .ok c) : c.startLine ≤ c.endLine := by
  unfold pyBlockComment at h
  split at h
  · cases h
  · cases h
    simp only
    have := countNl_take_mono code (Nat.le_add_right m.pos m.len)
    omega

theorem pyDocLoop_spans {code : List Char} :
    ∀ {ms : List DocMatch} {cs : List CommentInfo}, pyDocLoop code ms = .ok cs →
      ∀ c ∈ cs, c.startLine ≤ c.endLine := by
  intro ms
  induction ms with
  | nil =>
    intro cs h c hc
    cases h
    simp at hc
  | cons m ms ih =>
    intro cs h c hc
    unfold pyDocLoop at h
    cases hb : pyBlockComment code m with
    | ok c0 =>
      rw [hb] at h
      cases hrest : pyDocLoop code ms with
      | ok cs0 =>
        rw [hrest] at h
        simp only [Except.map] at h
        cases h
        rcases List.mem_cons.mp hc with rfl | hc
        · exact pyBlockComment_spans hb
        · exact ih hrest c hc
      | error e => rw [hrest] at h; simp only [Except.map] at h; cases h
    | error e => rw [hb] at h; cases h

theorem pyComments_spans {code : List Char} {cs : List CommentInfo}
    (h : extractPythonComments code (splitNl code) = .ok cs) :
    ∀ c ∈ cs, c.startLine ≤ c.endLine := by
  unfold extractPythonComments at h
  cases hloop : pyDocLoop code (scanDocstrings code) with
  | ok blocks =>
    rw [hloop] at h
    simp only [Except.map] at h
    cases h
    intro c hc
    rcases List.mem_append.mp hc with h | h
    · rcases List.mem_filterMap.mp h with ⟨il, _, hsome⟩
      split at hsome
      · cases hsome
        exact Nat.le_refl _
      · cases hsome
    · exact pyDocLoop_spans hloop c h
  | error e => rw [hloop] at h; simp only [Except.map] at h; cases h

theorem parsePython_spans {code : List Char} {fileName : String} {md : CodeMetadata}
    (h : parsePython code fileName = .ok md) : spansOk md := by
  unfold parsePython at h
  cases hcm : extractPythonComments code (splitNl code) with
  | ok comments =>
    rw [hcm] at h
    simp only [Except.map] at h
    cases h
    refine ⟨pyClasses_spans code, pyFunctions_spans code, ?_, ?_⟩
    · intro i hi
      exact absurd hi (List.not_mem_nil i)
    · exact pyComments_spans hcm
  | error e => rw [hcm] at h; simp only [Except.map] at h; cases h

theorem visitVarDecl_spans {parent : BParentKind} {m : CodeMetadata} {d : BVarDecl}
    (hm : spansOk m) (hd : ∀ fe, d.initFn = some fe → locOk fe.loc) :
    spansOk (visitVarDecl parent m d) := by
  obtain ⟨h1, h2, h3, h4⟩ := hm
  unfold visitVarDecl
  cases hid : d.idName with
  | none => exact ⟨h1, h2, h3, h4⟩
  | some n =>
    cases hfe : d.initFn with
    | none => exact ⟨h1, h2, h3, h4⟩
    | some fe =>
      have hloc : locStart fe.loc ≤ locEnd fe.loc := locStart_le_locEnd (hd fe hfe)
      have hfns : ∀ x ∈ m.functions ++ [extractArrowFunctionInfo n fe m.comments],
          x.startLine ≤ x.endLine := by
        intro x hx
        rcases List.mem_append.mp hx with hx | hx
        · exact h2 x hx
        · simp at hx
          subst hx
          simpa [extractArrowFunctionInfo] using hloc
      cases parent <;> exact ⟨h1, hfns, h3, h4⟩

theorem varFold_spans {parent : BParentKind} {decls : List BVarDecl}
    {md : CodeMetadata} (hmd : spansOk md)
    (hd : ∀ d ∈ decls, ∀ fe, d.initFn = some fe → locOk fe.loc) :
    spansOk (decls.foldl (visitVarDecl parent) md) := by
  induction decls generalizing md with
  | nil => exact hmd
  | cons d ds ih =>
    simp only [List.foldl_cons]
    exact ih (visitVarDecl_spans hmd (hd d (by simp)))
      (fun d' hd' => hd d' (by simp [hd']))

theorem visitStmt_spans {md : CodeMetadata} {s : BStmt}
    (hmd : spansOk md) (hs : stmtLocsOk s) : spansOk (visitStmt md s) := by
  obtain ⟨h1, h2, h3, h4⟩ := hmd
  cases s with
  | importS d => exact ⟨h1, h2, h3, h4⟩
  | classS parent c =>
    have hloc : locStart c.loc ≤ locEnd c.loc := locStart_le_locEnd hs
    have hcls : ∀ x ∈ md.classes ++ [extractClassInfo c md.comments],
        x.startLine ≤ x.endLine := by
      intro x hx
      rcases List.mem_append.mp hx with hx | hx
      · exact h1 x hx
      · simp at hx
        subst hx
        simpa [extractClassInfo] using hloc
    cases parent <;> exact ⟨hcls, h2, h3, h4⟩
  | funcS parent f =>
    cases hid : f.idName with
    | none => simp only [visitStmt, hid]; exact ⟨h1, h2, h3, h4⟩
    | some n =>
      have hloc : locStart f.loc ≤ locEnd f.loc := locStart_le_locEnd hs
      have hfns : ∀ x ∈ md.functions ++ [extractFunctionInfo f md.comments],
          x.startLine ≤ x.endLine := by
        intro x hx
        rcases List.mem_append.mp hx with hx | hx
        · exact h2 x hx
        · simp at hx
          subst hx
          simpa [extractFunctionInfo] using hloc
      simp only [visitStmt, hid]
      cases parent <;> exact ⟨h1, hfns, h3, h4⟩
  | varS parent decls =>
    have hd : ∀ d ∈ decls, ∀ fe, d.initFn = some fe → locOk fe.loc := hs
    cases parent with
    | exportDefault => exact ⟨h1, h2, h3, h4⟩
    | program => exact varFold_spans ⟨h1, h2, h3, h4⟩ hd
    | exportNamed => exact varFold_spans ⟨h1, h2, h3, h4⟩ hd
  | ifaceS parent i =>
    have hloc : locStart i.loc ≤ locEnd i.loc := locStart_le_locEnd hs
    have hifs : ∀ x ∈ md.interfaces ++ [extractInterfaceInfo i md.comments],
        x.startLine ≤ x.endLine := by
      intro x hx
      rcases List.mem_append.mp hx with hx | hx
      · exact h3 x hx
      · simp at hx
        subst hx
        simpa [extractInterfaceInfo] using hloc
    cases parent <;> exact ⟨h1, h2, hifs, h4⟩
  | exportDefaultIdent n => exact ⟨h1, h2, h3, h4⟩
  | exportNamedSpecs specs => exact ⟨h1, h2, h3, h4⟩
  | otherS => exact ⟨h1, h2, h3, h4⟩

theorem foldStmts_spans {stmts : List BStmt} {md : CodeMetadata}
    (hmd : spansOk md) (hs : ∀ s ∈ stmts, stmtLocsOk s) :
    spansOk (stmts.foldl visitStmt md) := by
  induction stmts generalizing md with
  | nil => exact hmd
  | cons s ss ih =>
    simp only [List.foldl_cons]
    exact ih (visitStmt_spans hmd (hs s (by simp))) (fun s' hs' => hs s' (by simp [hs']))

theorem emptyMetadata_spans (fileName language : String) (code : List Char) :
    spansOk (emptyMetadata fileName language code) := by
  refine ⟨?_, ?_, ?_, ?_⟩ <;> intro x hx <;> simp [emptyMetadata] at hx

theorem parseJavaScript_spans (parseResult : Option BProgram) (code : List Char)
    (fileName language : String)
    (h : ∀ p, parseResult = some p → bprogramOk p) :
    spansOk (parseJavaScript parseResult code fileName language) := by
  unfold parseJavaScript
  cases hp : parseResult with
  | none => exact emptyMetadata_spans fileName language code
  | some ast =>
    obtain ⟨hc, hstmts⟩ := h ast hp
    refine foldStmts_spans ⟨?_, ?_, ?_, ?_⟩ hstmts
    · intro x hx; simp [emptyMetadata] at hx
    · intro x hx; simp [emptyMetadata] at hx
    · intro x hx; simp [emptyMetadata] at hx
    · intro x hx
      simp only [emptyMetadata] at hx
      rcases List.mem_map.mp hx with ⟨cn, hcn, rfl⟩
      simpa [commentInfoOfNode] using locStart_le_locEnd (hc cn hcn)

/-- Whenever the analysis does return a metadata record, every
line-spanned entity of it satisfies `startLine ≤ endLine`.  The external
Babel parse is abstracted as `jsParse`; the hypothesis is Babel's
guarantee that every node location it produces has
`start.line ≤ end.line`. -/
theorem parseCode_line_spans (jsParse : List Char → Option BProgram)
    (hjs : ∀ cs p, jsParse cs = some p → bprogramOk p)
    (code : List Char) (fileName : String) (language : Option String)
    (md : CodeMetadata)
    (hok : parseCode jsParse code fileName language = .ok md) : spansOk md := by
  unfold parseCode at hok
  split at hok
  · cases hok
    exact emptyMetadata_spans fileName "unknown" code
  · rename_i lang _
    by_cases hsup : isLanguageSupported lang
    · rw [if_pos hsup] at hok
      by_cases hpy : lang = "python"
      · rw [if_pos hpy] at hok
        exact parsePython_spans hok
      · rw [if_neg hpy] at hok
        cases hok
        exact parseJavaScript_spans (jsParse code) code fileName lang
          (fun p hp => hjs code p hp)
    · rw [if_neg hsup] at hok
      cases hok
      exact emptyMetadata_spans fileName lang code

/-- Witness for the span invariant at a concrete returning input. -/
theorem parseCode_line_spans_witness :
    (∀ cs p, (fun (_ : List Char) => (none : Option BProgram)) cs = some p →
      bprogramOk p) ∧
    parseCode (fun _ => none) "x".data "a.py" none =
      .ok { fileName := "a.py", language := "python", classes := [],
            functions := [], interfaces := [], imports := [], exports := [],
            comments := [], rawCode := "x" } ∧
    spansOk { fileName := "a.py", language := "python", classes := [],
              functions := [], interfaces := [], imports := [], exports := [],
              comments := [], rawCode := "x" } := by
  refine ⟨?_, ?_, ?_⟩
  · intro cs p hp
    cases hp
  · decide
  · exact parseCode_line_spans (fun _ => none) (fun _ p hp => by cases hp)
      "x".data "a.py" none _ (by decide)

/-- The degraded path of `parseCode`: on an undetected or unsupported
language, or on a JS/TS parse failure, the result is the empty metadata
record with the original text preserved — these paths cannot throw. -/
theorem parseCode_degrades (jsParse : List Char → Option BProgram)
    (code : List Char) (fileName : String) (language : Option String)
    (h : ∀ l, detectLanguage fileName language = some l →
      isLanguageSupported l = false ∨
      ((l = "javascript" ∨ l = "typescript") ∧ jsParse code = none)) :
    parseCode jsParse code fileName language =
      .ok (emptyMetadata fileName
        ((detectLanguage fileName language).getD "unknown") code) := by
  unfold parseCode
  split
  · rename_i hd
    rw [hd]
    rfl
  · rename_i l hd
    rw [hd]
    rcases h l hd with hunsup | ⟨hjs, hnone⟩
    · rw [if_neg (by simp [hunsup])]
      rfl
    · have hsup : isLanguageSupported l := by
        rcases hjs with rfl | rfl <;> decide
      have hnp : l ≠ "python" := by
        rcases hjs with rfl | rfl <;> decide
      rw [if_pos hsup, if_neg hnp, hnone]
      rfl

/-- Witness for the degraded path at a concrete input: a TypeScript file
whose parse fails. -/
theorem parseCode_degrades_witness :
    (∀ l, detectLanguage "a.ts" none = some l →
      isLanguageSupported l = false ∨
      ((l = "javascript" ∨ l = "typescript") ∧
        (fun (_ : List Char) => (none : Option BProgram)) "let x = ".data = none)) ∧
    parseCode (fun _ => none) "let x = ".data "a.ts" none =
      .ok (emptyMetadata "a.ts" ((detectLanguage "a.ts" none).getD "unknown")
        "let x = ".data) :=
  have h : ∀ l, detectLanguage "a.ts" none = some l →
      isLanguageSupported l = false ∨
      ((l = "javascript" ∨ l = "typescript") ∧
        (fun (_ : List Char) => (none : Option BProgram)) "let x = ".data = none) := by
    intro l hl
    rw [show detectLanguage "a.ts" none = some "typescript" by decide] at hl
    cases hl
    exact Or.inr ⟨Or.inr rfl, rfl⟩
  ⟨h, parseCode_degrades (fun _ => none) "let x = ".data "a.ts" none h⟩

/-- C2 (evaluation at the failing input): `parseCode` does throw.  For
the Python source `""""""` — an empty `"""` docstring — the comment pass
evaluates `('' || undefined).trim()` and raises a TypeError that nothing
catches, so the entry point raises instead of returning the degraded
metadata with the original text.  The result holds for every `jsParse`:
the JS parser is never reached on this path. -/
theorem parseCode_throws_on_empty_docstring (jsParse : List Char → Option BProgram) :
    parseCode jsParse "\"\"\"\"\"\"".data "a.py" none =
      .error "TypeError: Cannot read properties of undefined (reading 'trim')" := by
  show parsePython "\"\"\"\"\"\"".data "a.py" = _
  decide

/-- C4 (evaluation at the failing input): at the Python source `""""""`
the analysis raises the comment-pass TypeError and returns no
CodeMetadata at all, so `analyze` does not "terminate and return a
CodeMetadata" for every input of a supported language. -/
theorem parsePython_throws_on_empty_docstring :
    parsePython "\"\"\"\"\"\"".data "a.py" =
      .error "TypeError: Cannot read properties of undefined (reading 'trim')" := by
  decide

/-- C1 (evaluation at the failing input): analyzing the scenario source
`class Foo(Bar): ...` with a `.py` file name yields exactly one class
named `Foo` with superclass `Bar`, one property `x`, and one method
`__init__` — but the recorded visibility is `protected`, not `public`:
the `startsWith('_')` fallback of the visibility classifier also catches
dunder names. -/
theorem python_scenario_init_visibility :
    parsePython "class Foo(Bar):\n    def __init__(self):\n        self.x = 1\n".data
        "foo.py" =
      .ok { fileName := "foo.py", language := "python",
            classes :=
              [{ name := "Foo", superClass := some "Bar",
                 properties := [{ name := "x", isOptional := false, isReadonly := false }],
                 methods := [{ name := "__init__", params := [], isAsync := false,
                               isStatic := false, visibility := Visibility.prot }],
                 startLine := 1, endLine := 4 }],
            functions := [], interfaces := [], imports := [], exports := [],
            comments := [],
            rawCode := "class Foo(Bar):\n    def __init__(self):\n        self.x = 1\n" } ∧
    Visibility.prot ≠ Visibility.pub := by
  constructor
  · decide
  · decide

/-!
## Prompt templates (`src/lib/prompts/templates.ts`)
-/

inductive DocumentType | requirements | design | api | test
deriving DecidableEq, Repr

inductive InputKind | code | text
deriving DecidableEq, Repr

def SYSTEM_PROMPTS : DocumentType → String
  | .requirements =>
    "你是一个专业的软件需求分析师。你的任务是根据提供的代码或描述，生成清晰、完整的软件需求文档。\n\n文档应包含：\n1. 项目概述\n2. 功能需求列表\n3. 用户故事\n4. 非功能需求（如有）\n5. 业务规则\n\n请使用 Markdown 格式，确保文档专业、易读。"
  | .design =>
    "你是一个资深的软件架构师。你的任务是根据提供的代码或描述，生成专业的软件设计文档。\n\n文档应包含：\n1. 系统概述\n2. 架构设计\n3. 模块设计\n4. 类/组件设计\n5. 数据流程\n6. 接口设计\n\n如果适用，请使用 Mermaid 语法添加架构图或流程图。请使用 Markdown 格式。"
  | .api =>
    "你是一个API文档专家。你的任务是根据提供的代码或描述，生成详细的API接口文档。\n\n文档应包含：\n1. API 概述\n2. 接口列表\n3. 每个接口的详细说明：\n   - 接口路径\n   - 请求方法\n   - 请求参数\n   - 响应格式\n   - 示例代码\n4. 错误码说明\n\n请使用 Markdown 格式，必要时使用表格展示参数信息。"
  | .test =>
    "你是一个软件测试专家。你的任务是根据提供的代码或描述，生成完整的测试文档。\n\n文档应包含：\n1. 测试概述\n2. 测试范围\n3. 测试用例列表：\n   - 用例ID\n   - 测试场景\n   - 前置条件\n   - 测试步骤\n   - 预期结果\n4. 边界条件测试\n5. 异常情况测试\n\n请使用 Markdown 格式，使用表格展示测试用例。"

def getTaskDescription : DocumentType → String
  | .requirements => "请根据以下内容生成一份专业的**软件需求文档**。"
  | .design => "请根据以下内容生成一份专业的**软件设计文档**。"
  | .api => "请根据以下内容生成一份详细的**API接口文档**。"
  | .test => "请根据以下内容生成一份完整的**软件测试文档**。"

def getOutputRequirements : DocumentType → String
  | .requirements =>
    "\n1. 使用 Markdown 格式\n2. 包含项目概述、功能需求、用户故事\n3. 需求描述清晰、可测量\n4. 为每个功能需求分配优先级（高/中/低）\n5. 使用编号便于追踪"
  | .design =>
    "\n1. 使用 Markdown 格式\n2. 包含系统架构、模块设计、类设计\n3. 使用 Mermaid 语法添加架构图或类图\n4. 说明各模块之间的依赖关系\n5. 包含设计决策和理由说明"
  | .api =>
    "\n1. 使用 Markdown 格式\n2. 每个接口包含完整的参数说明\n3. 使用表格展示参数信息\n4. 提供请求和响应的示例\n5. 包含错误处理说明"
  | .test =>
    "\n1. 使用 Markdown 格式\n2. 测试用例使用表格形式\n3. 包含正常流程和异常流程测试\n4. 覆盖边界条件\n5. 每个用例有明确的预期结果"

def getDocTypeName : DocumentType → String
  | .requirements => "需求文档"
  | .design => "设计文档"
  | .api => "API文档"
  | .test => "测试文档"

/-- The per-class lines of `generateMetadataSummary`. -/
def classSummaryLines (cls : ClassInfo) : List String :=
  ["  - `" ++ cls.name ++ "`" ++
    (match cls.superClass with
     | some s => " (继承自 " ++ s ++ ")"
     | none => "")] ++
  (if cls.methods.length > 0 then
    ["    - 方法: " ++ joinSep ", " (cls.methods.map (·.name))]
  else [])

/-- The per-function line of `generateMetadataSummary`. -/
def functionSummaryLine (fn : FunctionInfo) : String :=
  "  - `" ++ fn.name ++ "(" ++ joinSep ", " (fn.params.map (·.name)) ++ ")`" ++
    (match fn.returnType with
     | some r => " → " ++ r
     | none => "")

/-- `generateMetadataSummary` (templates.ts): the human-readable summary
embedded in the user payload. -/
def generateMetadataSummary (metadata : CodeMetadata) : String :=
  let lines : List String :=
    ["- **文件名**: " ++ metadata.fileName,
     "- **编程语言**: " ++ metadata.language] ++
    (if metadata.classes.length > 0 then
      ("- **类定义**: " ++ toString metadata.classes.length ++ " 个") ::
        (metadata.classes.map classSummaryLines).flatten
    else []) ++
    (if metadata.functions.length > 0 then
      ("- **函数定义**: " ++ toString metadata.functions.length ++ " 个") ::
        metadata.functions.map functionSummaryLine
    else []) ++
    (if metadata.interfaces.length > 0 then
      ("- **接口定义**: " ++ toString metadata.interfaces.length ++ " 个") ::
        metadata.interfaces.map (fun i => "  - `" ++ i.name ++ "`")
    else []) ++
    (if metadata.imports.length > 0 then
      ["- **模块导入**: " ++ toString metadata.imports.length ++ " 个"]
    else [])
  joinSep "\n" lines

/-- `Array.prototype.join('\n')` on char-list lines. -/
def joinNl : List (List Char) → List Char
  | [] => []
  | [s] => s
  | s :: rest => s ++ '\n' :: joinNl rest

/-- `generateUserPrompt`: the fixed-order concatenation of task statement,
input block, optional structure summary, optional extra context, and
output requirements, joined by newlines. -/
def generateUserPrompt (docType : DocumentType) (inputType : InputKind)
    (content : List Char) (metadata : Option CodeMetadata)
    (additionalContext : Option (List Char)) : List Char :=
  joinNl
    ([(getTaskDescription docType).data, []] ++
     (match inputType with
      | .code =>
        ["## 代码内容".data,
         ("```" ++ (match metadata with
                    | some m => m.language
                    | none => "")).data,
         content, "```".data, []] ++
        (match metadata with
         | some m => ["## 代码结构分析".data, (generateMetadataSummary m).data, []]
         | none => [])
      | .text => ["## 需求描述".data, content, []]) ++
     (match additionalContext with
      | some ctx => if ctx = [] then [] else ["## 补充说明".data, ctx, []]
      | none => []) ++
     ["## 输出要求".data, (getOutputRequirements docType).data])

/-!
## Prompt builder (`src/lib/prompts/builder.ts`)
-/

/-- The resolved `PromptBuilderConfig` after the constructor merges the
defaults `includeCodeSummary: true, maxCodeLength: 50000` with the
caller's overrides. -/
structure PromptBuilderConfig where
  includeCodeSummary : Bool := true
  maxCodeLength : Nat := 50000
  language : Option String := none
deriving DecidableEq, Repr

def defaultPromptBuilderConfig : PromptBuilderConfig := {}

/-- The visible truncation marker appended by `truncateCode`. -/
def TRUNCATION_MARKER : List Char := "\n\n// ... 代码过长，已截断 ...".data

/-- `PromptBuilder.truncateCode`: code at or under the budget is returned
unchanged; otherwise cut at the budget, back up to the last newline when
one exists at a positive index, and append the marker. -/
def truncateCode (maxLen : Nat) (code : List Char) : List Char :=
  if code.length ≤ maxLen then code
  else
    (if lastIndexOfChar (code.take maxLen) '\n' > 0 then
      (code.take maxLen).take (lastIndexOfChar (code.take maxLen) '\n').toNat
    else code.take maxLen) ++ TRUNCATION_MARKER

structure GenerateRequest where
  type : InputKind
  docType : DocumentType
  content : List Char
  fileName : Option String := none
  language : Option String := none
  additionalContext : Option (List Char) := none

structure BuiltPrompt where
  systemPrompt : String
  userPrompt : List Char
  metadata : Option CodeMetadata := none

/-- `PromptBuilder.buildFromRequest`: the analyzer runs on the truncated
content only when the request is code-typed AND carries a truthy file
name; the user prompt is generated from the (re-)truncated content and
the resulting metadata.  `buildFromRequest` has no catch around the
analyzer call, so an analyzer TypeError propagates out of the build
(hence the `Except` result). -/
def buildFromRequest (jsParse : List Char → Option BProgram)
    (config : PromptBuilderConfig) (request : GenerateRequest) :
    Except String BuiltPrompt :=
  ((match request.type, request.fileName with
    | InputKind.code, some fn =>
      if fn = "" then Except.ok none
      else (parseCode jsParse (truncateCode config.maxCodeLength request.content)
        fn request.language).map some
    | _, _ => Except.ok none : Except String (Option CodeMetadata))).map
   (fun metadata =>
    { systemPrompt := SYSTEM_PROMPTS request.docType,
      userPrompt := generateUserPrompt request.docType request.type
        (match request.type with
         | .code => truncateCode config.maxCodeLength request.content
         | .text => request.content)
        metadata request.additionalContext,
      metadata := metadata })

/-- C5: code at or under the budget is returned unchanged; longer code is
truncated to at most `maxLen + |marker|` characters and ends exactly with
the truncation marker. -/
theorem truncateCode_spec (maxLen : Nat) (code : List Char) :
    (code.length ≤ maxLen → truncateCode maxLen code = code) ∧
    (maxLen < code.length →
      (truncateCode maxLen code).length ≤ maxLen + TRUNCATION_MARKER.length ∧
      ∃ pre, truncateCode maxLen code = pre ++ TRUNCATION_MARKER) := by
  constructor
  · intro h
    unfold truncateCode
    rw [if_pos h]
  · intro h
    unfold truncateCode
    rw [if_neg (by omega)]
    constructor
    · have htake : (code.take maxLen).length = maxLen := by
        simp [List.length_take]
        omega
      by_cases hln : lastIndexOfChar (code.take maxLen) '\n' > 0
      · rw [if_pos hln]
        have : ((code.take maxLen).take
            (lastIndexOfChar (code.take maxLen) '\n').toNat).length ≤ maxLen := by
          simp [List.length_take]
        simp only [List.length_append]
        omega
      · rw [if_neg hln]
        simp only [List.length_append]
        omega
    · by_cases hln : lastIndexOfChar (code.take maxLen) '\n' > 0
      · rw [if_pos hln]
        exact ⟨_, rfl⟩
      · rw [if_neg hln]
        exact ⟨_, rfl⟩

/-- Witness for C5 at concrete inputs: budget 5, a short string kept
as-is, and a 9-character string truncated at its newline. -/
theorem truncateCode_spec_witness :
    ("ab".data.length ≤ 5 ∧ truncateCode 5 "ab".data = "ab".data) ∧
    (5 < "abc\ndefgh".data.length ∧
      (truncateCode 5 "abc\ndefgh".data).length ≤ 5 + TRUNCATION_MARKER.length) :=
  ⟨⟨by decide, (truncateCode_spec 5 "ab".data).1 (by decide)⟩,
   ⟨by decide, ((truncateCode_spec 5 "abc\ndefgh".data).2 (by decide)).1⟩⟩

/-- Joining lines keeps each line as a contiguous segment. -/
theorem joinNl_contains {parts : List (List Char)} {s : List Char} (h : s ∈ parts) :
    ∃ a b, joinNl parts = a ++ s ++ b := by
  induction parts with
  | nil => simp at h
  | cons x rest ih =>
    rcases List.mem_cons.mp h with rfl | h
    · cases rest with
      | nil => exact ⟨[], [], by simp [joinNl]⟩
      | cons y ys => exact ⟨[], '\n' :: joinNl (y :: ys), by simp [joinNl]⟩
    · cases rest with
      | nil => simp at h
      | cons y ys =>
        obtain ⟨a, b, hab⟩ := ih h
        refine ⟨x ++ '\n' :: a, b, ?_⟩
        simp [joinNl, hab]

/-- C6 counterexample: a code-typed request with no file name never
invokes the analyzer, so the returned BuiltPrompt carries no metadata. -/
theorem buildFromRequest_no_fileName :
    (buildFromRequest (fun _ => none) defaultPromptBuilderConfig
      { type := InputKind.code, docType := DocumentType.api,
        content := "x".data }).map BuiltPrompt.metadata = .ok none := rfl

/-- C6 (amended to requests that carry a nonempty file name): whenever
the analyzer returns a metadata record `md` for the truncated content,
the build returns a BuiltPrompt whose metadata is exactly `md` and whose
user payload is generated from the truncated content and `md`, embedding
the code-structure summary section. -/
theorem buildFromRequest_code_spec (jsParse : List Char → Option BProgram)
    (config : PromptBuilderConfig) (request : GenerateRequest) (fn : String)
    (md : CodeMetadata)
    (h1 : request.type = InputKind.code)
    (h2 : request.fileName = some fn) (h3 : fn ≠ "")
    (hparse : parseCode jsParse (truncateCode config.maxCodeLength request.content)
      fn request.language = .ok md) :
    buildFromRequest jsParse config request =
      .ok { systemPrompt := SYSTEM_PROMPTS request.docType,
            userPrompt := generateUserPrompt request.docType InputKind.code
              (truncateCode config.maxCodeLength request.content)
              (some md) request.additionalContext,
            metadata := some md } ∧
    ∃ a b, generateUserPrompt request.docType InputKind.code
        (truncateCode config.maxCodeLength request.content)
        (some md) request.additionalContext =
      a ++ "## 代码结构分析".data ++ b := by
  constructor
  · unfold buildFromRequest
    rw [h1, h2]
    simp only
    rw [if_neg h3, hparse]
    rfl
  · unfold generateUserPrompt
    apply joinNl_contains
    simp

/-- Witness for the amended C6 at a concrete code request with file name
`a.py`. -/
theorem buildFromRequest_code_spec_witness :
    (({ type := InputKind.code, docType := DocumentType.api,
        content := "x".data, fileName := some "a.py" } : GenerateRequest).type =
          InputKind.code ∧
      ({ type := InputKind.code, docType := DocumentType.api,
         content := "x".data, fileName := some "a.py" } : GenerateRequest).fileName =
          some "a.py" ∧
      "a.py" ≠ "" ∧
      parseCode (fun _ => none)
        (truncateCode defaultPromptBuilderConfig.maxCodeLength "x".data) "a.py" none =
        .ok { fileName := "a.py", language := "python", classes := [],
              functions := [], interfaces := [], imports := [], exports := [],
              comments := [], rawCode := "x" }) ∧
    (buildFromRequest (fun _ => none) defaultPromptBuilderConfig
      { type := InputKind.code, docType := DocumentType.api,
        content := "x".data, fileName := some "a.py" }).map BuiltPrompt.metadata =
      .ok (some { fileName := "a.py", language := "python", classes := [],
                  functions := [], interfaces := [], imports := [], exports := [],
                  comments := [], rawCode := "x" }) :=
  ⟨⟨rfl, rfl, by decide, by decide⟩,
   by
    rw [(buildFromRequest_code_spec (fun _ => none) defaultPromptBuilderConfig
      { type := InputKind.code, docType := DocumentType.api,
        content := "x".data, fileName := some "a.py" } "a.py"
      { fileName := "a.py", language := "python", classes := [],
        functions := [], interfaces := [], imports := [], exports := [],
        comments := [], rawCode := "x" } rfl rfl (by decide) (by decide)).1]
    rfl⟩


/-!
## LLM data model (`src/lib/types.ts`, continued) and adapters
-/

structure Usage where
  promptTokens : Int
  completionTokens : Int
  totalTokens : Int
deriving DecidableEq, Repr

structure LLMResponse where
  content : String
  usage : Option Usage := none
deriving DecidableEq, Repr

structure GenerateResult where
  id : String
  docType : DocumentType
  title : String
  content : String
  metadata : Option CodeMetadata := none
  createdAt : String
  inputType : InputKind
deriving DecidableEq, Repr

/-!
## Backend B: ERNIE OAuth2 adapter (`ErnieAdapter` of the OAuth variant)

`getAccessToken` keeps a cached token and its expiry in adapter state; the
credential-exchange HTTP call is abstracted as an already-resolved
`TokenExchange` value (the claim concerns the caching arithmetic, not the
transport).  `Date.now()` is the `now` parameter in milliseconds.
-/

structure ErnieTokenState where
  accessToken : Option String
  tokenExpiry : Int
deriving DecidableEq, Repr

/-- Adapter construction leaves `accessToken = null`, `tokenExpiry = 0`. -/
def initialErnieState : ErnieTokenState := ⟨none, 0⟩

/-- The provider response to the client-credentials exchange. -/
structure TokenExchange where
  accessToken : String
  expiresIn : Int
deriving DecidableEq, Repr

/-- `getAccessToken`: a truthy cached token with `now < tokenExpiry` is
returned without an exchange; otherwise the exchange result is cached
with expiry `now + (expires_in - 300) * 1000` and an exchange is counted.
The returned flag records whether an exchange happened. -/
def getAccessToken (st : ErnieTokenState) (now : Int) (exchange : TokenExchange) :
    String × ErnieTokenState × Bool :=
  match st.accessToken with
  | some tok =>
    if tok ≠ "" ∧ now < st.tokenExpiry then (tok, st, false)
    else (exchange.accessToken,
      ⟨some exchange.accessToken, now + (exchange.expiresIn - 300) * 1000⟩, true)
  | none =>
    (exchange.accessToken,
      ⟨some exchange.accessToken, now + (exchange.expiresIn - 300) * 1000⟩, true)

/-- C7: from a fresh adapter, the first generation call performs the
exchange and caches an expiry equal to the exchange time plus the
provider-declared lifetime minus 300 seconds (in milliseconds); a second
call at any time inside that validity window performs no exchange and
reuses the cached token — exactly one exchange across the two calls. -/
theorem ernie_token_cache (t1 t2 : Int) (ex1 ex2 : TokenExchange)
    (htok : ex1.accessToken ≠ "")
    (hwindow : t2 < t1 + (ex1.expiresIn - 300) * 1000) :
    (getAccessToken initialErnieState t1 ex1).2.2 = true ∧
    (getAccessToken initialErnieState t1 ex1).2.1.tokenExpiry =
      t1 + (ex1.expiresIn - 300) * 1000 ∧
    (getAccessToken (getAccessToken initialErnieState t1 ex1).2.1 t2 ex2).2.2 = false ∧
    (getAccessToken (getAccessToken initialErnieState t1 ex1).2.1 t2 ex2).1 =
      ex1.accessToken := by
  refine ⟨rfl, rfl, ?_, ?_⟩
  · simp [getAccessToken, initialErnieState, htok, hwindow]
  · simp [getAccessToken, initialErnieState, htok, hwindow]

/-- Witness for C7: exchange at t=1000 with a one-hour token, second call
at t=2000. -/
theorem ernie_token_cache_witness :
    ((⟨"tok", 3600⟩ : TokenExchange).accessToken ≠ "" ∧
      (2000 : Int) < 1000 + ((⟨"tok", 3600⟩ : TokenExchange).expiresIn - 300) * 1000) ∧
    (getAccessToken (getAccessToken initialErnieState 1000 ⟨"tok", 3600⟩).2.1 2000
      ⟨"tok2", 3600⟩).2.2 = false :=
  ⟨⟨by decide, by decide⟩,
   (ernie_token_cache 1000 2000 ⟨"tok", 3600⟩ ⟨"tok2", 3600⟩ (by decide)
     (by decide)).2.2.1⟩

/-!
## Backend C: Xfyun Spark adapter (`XfyunSparkAdapter.parseConfig`)

The constructor calls `parseConfig` before anything else; every network
interaction happens only in later method calls, so a thrown configuration
error precedes any network attempt by construction.
-/

/-- The `LLMConfig` fields `parseConfig` reads (`apiKey` is a required
string in the source type; the xfyun-specific fields are optional). -/
structure XfLLMConfig where
  apiKey : String
  appId : Option String := none
  apiSecret : Option String := none
deriving DecidableEq, Repr

/-- JavaScript truthiness of an optional string field. -/
def truthyOpt : Option String → Bool
  | some s => s ≠ ""
  | none => false

/-- `parseConfig`: separate fields win; else a colon-containing `apiKey`
must split into exactly three parts; else a descriptive error. -/
def parseConfig (config : XfLLMConfig) :
    Except String (String × String × String) :=
  if truthyOpt config.appId ∧ config.apiKey ≠ "" ∧ truthyOpt config.apiSecret then
    .ok (config.appId.getD "", config.apiKey, config.apiSecret.getD "")
  else if config.apiKey ≠ "" ∧ includesL config.apiKey.data ":".data then
    if (splitOnChar ':' config.apiKey.data).length ≠ 3 then
      .error "讯飞星火 API Key 格式错误，正确格式: APPID:APIKey:APISecret"
    else
      .ok (strOf ((splitOnChar ':' config.apiKey.data).getD 0 []),
           strOf ((splitOnChar ':' config.apiKey.data).getD 1 []),
           strOf ((splitOnChar ':' config.apiKey.data).getD 2 []))
  else
    .error "讯飞星火需要 APPID、APIKey 和 APISecret，请提供分离字段或使用格式 \"APPID:APIKey:APISecret\""

/-- The credential shapes the claim allows: three truthy separate fields,
or an `apiKey` that splits on `:` into exactly three parts. -/
def xfyunCredsShape (config : XfLLMConfig) : Prop :=
  (truthyOpt config.appId = true ∧ config.apiKey ≠ "" ∧ truthyOpt config.apiSecret = true) ∨
  (config.apiKey ≠ "" ∧ ':' ∈ config.apiKey.data ∧
    (splitOnChar ':' config.apiKey.data).length = 3)

theorem includes_single_iff (cs : List Char) (c : Char) :
    includesL cs [c] = true ↔ c ∈ cs := by
  unfold includesL indexOfSub
  rw [Option.isSome_iff_exists]
  constructor
  · rintro ⟨i, hi⟩
    have hp : (cs.drop i).take 1 = [c] := by
      have := List.find?_some hi
      simpa using this
    cases hd : cs.drop i with
    | nil => rw [hd] at hp; simp at hp
    | cons x rest =>
      rw [hd] at hp
      simp at hp
      have hx : x ∈ cs := List.drop_subset i cs (hd ▸ List.mem_cons_self x rest)
      rwa [hp] at hx
  · intro hmem
    obtain ⟨i, hlt, hget⟩ := List.mem_iff_getElem.mp hmem
    have hfind : ∃ x ∈ List.range (cs.length + 1),
        (decide ((cs.drop x).take 1 = [c])) = true := by
      refine ⟨i, List.mem_range.mpr (by omega), ?_⟩
      rw [List.drop_eq_getElem_cons hlt, hget]
      simp
    have := List.find?_isSome.mpr hfind
    rwa [Option.isSome_iff_exists] at this

theorem splitOnChar_ne_nil (sep : Char) (cs : List Char) : splitOnChar sep cs ≠ [] := by
  induction cs with
  | nil => simp [splitOnChar]
  | cons c rest ih =>
    simp only [splitOnChar]
    split
    · simp
    · cases h : splitOnChar sep rest with
      | nil => simp
      | cons l ls => simp

theorem length_splitOnChar (sep : Char) (cs : List Char) :
    (splitOnChar sep cs).length = cs.count sep + 1 := by
  induction cs with
  | nil => simp [splitOnChar]
  | cons c rest ih =>
    simp only [splitOnChar]
    split
    · rename_i h
      subst h
      simp [List.count_cons] at ih ⊢
      omega
    · rename_i h
      cases hs : splitOnChar sep rest with
      | nil => exact absurd hs (splitOnChar_ne_nil sep rest)
      | cons l ls =>
        rw [hs] at ih
        simp [List.count_cons] at ih ⊢
        simp [ih, h]

/-- C8: construction succeeds exactly when the credentials resolve as
three truthy separate fields or as a colon-joined triple in `apiKey`;
every failure is a thrown error whose message names the expected
`APPID:APIKey:APISecret` format.  `parseConfig` runs inside the
constructor, before any network attempt. -/
theorem parseConfig_spec (config : XfLLMConfig) :
    ((∃ creds, parseConfig config = .ok creds) ↔ xfyunCredsShape config) ∧
    (∀ msg, parseConfig config = .error msg →
      ∃ a b, msg.data = a ++ "APPID:APIKey:APISecret".data ++ b) := by
  by_cases h1 : truthyOpt config.appId ∧ config.apiKey ≠ "" ∧ truthyOpt config.apiSecret
  · constructor
    · constructor
      · intro _
        exact Or.inl ⟨h1.1, h1.2.1, h1.2.2⟩
      · intro _
        exact ⟨_, by unfold parseConfig; rw [if_pos h1]⟩
    · intro msg hmsg
      unfold parseConfig at hmsg
      rw [if_pos h1] at hmsg
      cases hmsg
  · by_cases h2 : config.apiKey ≠ "" ∧ includesL config.apiKey.data ":".data
    · by_cases h3 : (splitOnChar ':' config.apiKey.data).length ≠ 3
      · constructor
        · constructor
          · rintro ⟨creds, hok⟩
            unfold parseConfig at hok
            rw [if_neg h1, if_pos h2, if_pos h3] at hok
            cases hok
          · rintro (hshape | hshape)
            · exact absurd ⟨hshape.1, hshape.2.1, hshape.2.2⟩ h1
            · exact absurd hshape.2.2 h3
        · intro msg hmsg
          unfold parseConfig at hmsg
          rw [if_neg h1, if_pos h2, if_pos h3] at hmsg
          cases hmsg
          exact ⟨"讯飞星火 API Key 格式错误，正确格式: ".data, [], by decide⟩
      · constructor
        · constructor
          · intro _
            refine Or.inr ⟨h2.1, ?_, by omega⟩
            exact (includes_single_iff config.apiKey.data ':').mp h2.2
          · intro _
            exact ⟨_, by unfold parseConfig; rw [if_neg h1, if_pos h2, if_neg h3]⟩
        · intro msg hmsg
          unfold parseConfig at hmsg
          rw [if_neg h1, if_pos h2, if_neg h3] at hmsg
          cases hmsg
    · constructor
      · constructor
        · rintro ⟨creds, hok⟩
          unfold parseConfig at hok
          rw [if_neg h1, if_neg h2] at hok
          cases hok
        · rintro (hshape | hshape)
          · exact absurd ⟨hshape.1, hshape.2.1, hshape.2.2⟩ h1
          · refine absurd ⟨hshape.1, ?_⟩ h2
            exact (includes_single_iff config.apiKey.data ':').mpr hshape.2.1
      · intro msg hmsg
        unfold parseConfig at hmsg
        rw [if_neg h1, if_neg h2] at hmsg
        cases hmsg
        exact ⟨"讯飞星火需要 APPID、APIKey 和 APISecret，请提供分离字段或使用格式 \"".data,
          "\"".data, by decide⟩

/-- Witness for C8: the colon-joined triple `app:key:secret` resolves. -/
theorem parseConfig_spec_witness :
    xfyunCredsShape ⟨"app:key:secret", none, none⟩ ∧
    (∃ creds, parseConfig ⟨"app:key:secret", none, none⟩ = .ok creds) :=
  have hshape : xfyunCredsShape ⟨"app:key:secret", none, none⟩ :=
    Or.inr ⟨by decide, by decide, by decide⟩
  ⟨hshape, (parseConfig_spec ⟨"app:key:secret", none, none⟩).1.mpr hshape⟩

/-- The canned demo documents of `MockDocGenerator.getMockContent`. -/
def getMockContent : DocumentType → String
  | .requirements =>
    "# 软件需求文档\n\n## 1. 项目概述\n\n本项目是一个 AI 驱动的文档生成系统，旨在帮助开发者自动生成软件工程文档。\n\n## 2. 功能需求\n\n### 2.1 代码分析功能\n- **优先级**: 高\n- **描述**: 系统能够解析用户上传的源代码文件\n- **验收标准**: 支持 JavaScript、TypeScript、Python 等主流语言\n\n### 2.2 文档生成功能\n- **优先级**: 高\n- **描述**: 基于 AI 大模型自动生成文档\n- **验收标准**: 支持需求文档、设计文档、API文档、测试文档\n\n## 3. 用户故事\n\n**US-001**: 作为开发者，我希望上传代码文件后自动生成API文档，以便减少文档编写时间。\n\n**US-002**: 作为项目经理，我希望根据需求描述生成规范的需求文档，以便统一团队文档标准。\n\n## 4. 非功能需求\n\n- 系统响应时间应小于 30 秒\n- 支持最大 100KB 的代码文件\n- 界面应支持中文"
  | .design =>
    "# 软件设计文档\n\n## 1. 系统概述\n\n本系统采用 Next.js 全栈架构，前后端一体化开发。\n\n## 2. 系统架构\n\n```mermaid\ngraph TB\n    subgraph Frontend[前端层]\n        UI[用户界面]\n        Upload[文件上传]\n        Preview[文档预览]\n    end\n    \n    subgraph Backend[后端层]\n        API[API Routes]\n        Parser[代码解析器]\n        Generator[文档生成器]\n    end\n    \n    subgraph External[外部服务]\n        LLM[大模型API]\n    end\n    \n    UI --> API\n    Upload --> API\n    API --> Parser\n    Parser --> Generator\n    Generator --> LLM\n    LLM --> Preview\n```\n\n## 3. 模块设计\n\n### 3.1 代码解析模块\n- 职责：解析源代码，提取结构信息\n- 依赖：@babel/parser, tree-sitter\n\n### 3.2 Prompt 工程模块\n- 职责：构建高质量的 Prompt\n- 依赖：代码解析模块\n\n### 3.3 LLM 适配器模块\n- 职责：封装大模型 API 调用\n- 依赖：智谱 GLM / 文心一言 API"
  | .api =>
    "# API 接口文档\n\n## 1. 概述\n\n本文档描述了文档生成系统的 REST API 接口。\n\n## 2. 接口列表\n\n### 2.1 解析代码\n\n**请求**\n- **路径**: `POST /api/parse-code`\n- **Content-Type**: `application/json`\n\n**参数**\n\n| 参数名 | 类型 | 必填 | 说明 |\n|-------|------|-----|------|\n| code | string | 是 | 源代码内容 |\n| fileName | string | 是 | 文件名 |\n\n**响应示例**\n```json\n\x7b\n  \"success\": true,\n  \"data\": \x7b\n    \"classes\": [...],\n    \"functions\": [...],\n    \"imports\": [...]\n  \x7d\n\x7d\n```\n\n### 2.2 生成文档\n\n**请求**\n- **路径**: `POST /api/generate-doc`\n- **Content-Type**: `application/json`\n\n**参数**\n\n| 参数名 | 类型 | 必填 | 说明 |\n|-------|------|-----|------|\n| type | string | 是 | 输入类型: code/text |\n| docType | string | 是 | 文档类型 |\n| content | string | 是 | 内容 |"
  | .test =>
    "# 软件测试文档\n\n## 1. 测试概述\n\n本文档定义了文档生成系统的测试用例。\n\n## 2. 测试范围\n\n- 代码解析功能\n- 文档生成功能\n- 用户界面功能\n\n## 3. 测试用例\n\n| 用例ID | 模块 | 场景 | 前置条件 | 测试步骤 | 预期结果 |\n|-------|------|-----|---------|---------|---------|\n| TC-001 | 代码解析 | 解析JS文件 | 系统正常运行 | 1.上传JS文件 2.点击解析 | 成功提取类和函数信息 |\n| TC-002 | 代码解析 | 解析空文件 | 系统正常运行 | 1.上传空文件 2.点击解析 | 提示文件为空 |\n| TC-003 | 文档生成 | 生成API文档 | 已解析代码 | 1.选择API文档 2.点击生成 | 成功生成文档 |\n| TC-004 | 文档生成 | 无网络连接 | 断开网络 | 1.点击生成 | 显示网络错误提示 |\n\n## 4. 边界测试\n\n- 超大文件（>100KB）处理\n- 特殊字符处理\n- 并发请求处理"

/-!
## Streaming loops

The HTTP body reader delivers decoded text chunks (`netChunks`); each is
split on newlines and filtered to non-blank lines exactly as the adapters
do.  `JSON.parse` is abstracted as a `parseJson` parameter returning the
fields the adapter reads (or `none` for a parse exception).  The
accumulator records the accumulated text, the latest usage record, and
the list of strings passed to the `onChunk` callback, in order.
-/

structure StreamAcc where
  fullContent : List Char
  usage : Option Usage
  chunks : List (List Char)
deriving DecidableEq, Repr

def initAcc : StreamAcc := ⟨[], none, []⟩

/-- The fields the Zhipu stream loop reads from a parsed SSE frame. -/
structure ZhipuFrame where
  content : Option String
  usage : Option Usage
deriving DecidableEq, Repr

/-- `parsed.error` of the ERNIE (qianfan v2) stream, with its optional
`code` and `message` fields. -/
structure ErnieErr where
  code : Option String
  message : Option String
deriving DecidableEq, Repr

/-- The fields the ERNIE stream loop reads from a parsed SSE frame. -/
structure ErnieFrame where
  error : Option ErnieErr
  content : Option String
  usage : Option Usage
deriving DecidableEq, Repr

/-- One element of `response.payload.choices.text` in an Xfyun frame. -/
structure XfText where
  content : Option String
deriving DecidableEq, Repr

/-- The `if (content) { fullContent += content; onChunk?.(content) }` step
shared by the two SSE loops: truthy content is appended to the
accumulated text and recorded as a delivered chunk. -/
def pushChunk (acc : StreamAcc) (content : List Char) : StreamAcc :=
  if content ≠ [] then
    { acc with fullContent := acc.fullContent ++ content,
               chunks := acc.chunks ++ [content] }
  else acc

/-- A frame-supplied usage record overwrites the running one. -/
def setUsage (acc : StreamAcc) : Option Usage → StreamAcc
  | some u => { acc with usage := some u }
  | none => acc

/-- The Xfyun text step: when the `text` array is present and nonempty,
`text[0].content || ''` is appended and delivered to the callback even
when empty. -/
def xfyunPush (acc : StreamAcc) : Option (List XfText) → StreamAcc
  | some ts =>
    if ts.length > 0 then
      { acc with
        fullContent := acc.fullContent ++ ((ts.headD ⟨none⟩).content.getD "").data,
        chunks := acc.chunks ++ [((ts.headD ⟨none⟩).content.getD "").data] }
    else acc
  | none => acc

/-- One line of `ZhipuGLMAdapter.generateDocStream`: only `data: ` lines
are protocol frames; the `[DONE]` terminator and unparseable payloads are
skipped; truthy delta content is appended and forwarded to the callback;
a `usage` field overwrites the running usage record. -/
def zhipuProcessLine (parseJson : List Char → Option ZhipuFrame)
    (acc : StreamAcc) (line : List Char) : StreamAcc :=
  if startsWithL line "data: ".data then
    if line.drop 6 = "[DONE]".data then acc
    else
      match parseJson (line.drop 6) with
      | none => acc
      | some parsed => setUsage (pushChunk acc (parsed.content.getD "").data) parsed.usage
  else acc

def zhipuProcessChunk (parseJson : List Char → Option ZhipuFrame)
    (acc : StreamAcc) (chunk : List Char) : StreamAcc :=
  ((splitNl chunk).filter (fun l => jsTrimL l ≠ [])).foldl
    (zhipuProcessLine parseJson) acc

/-- `ZhipuGLMAdapter.generateDocStream` over a list of decoded body
chunks: the emitted callback strings and the returned `LLMResponse`. -/
def zhipuGenerateDocStream (parseJson : List Char → Option ZhipuFrame)
    (netChunks : List (List Char)) : List (List Char) × LLMResponse :=
  let acc := netChunks.foldl (zhipuProcessChunk parseJson) initAcc
  (acc.chunks, { content := strOf acc.fullContent, usage := acc.usage })

/-- One line of `ErnieAdapter.generateDocStream`: like Zhipu, but an
embedded `error` object is rethrown out of the parse guard (the guard
re-raises exactly the errors whose message carries the adapter's error
prefix), terminating the stream with a rejection. -/
def ernieProcessLine (parseJson : List Char → Option ErnieFrame)
    (acc : StreamAcc) (line : List Char) : Except String StreamAcc :=
  if startsWithL line "data: ".data then
    if line.drop 6 = "[DONE]".data then .ok acc
    else
      match parseJson (line.drop 6) with
      | none => .ok acc
      | some parsed =>
        match parsed.error with
        | some e =>
          .error ("文心一言API错误: " ++ e.code.getD "unknown" ++ " - " ++
            e.message.getD "未知错误")
        | none =>
          .ok (setUsage (pushChunk acc (parsed.content.getD "").data) parsed.usage)
  else .ok acc

def ernieFoldLines (parseJson : List Char → Option ErnieFrame) :
    List (List Char) → StreamAcc → Except String StreamAcc
  | [], acc => .ok acc
  | l :: ls, acc =>
    match ernieProcessLine parseJson acc l with
    | .ok acc1 => ernieFoldLines parseJson ls acc1
    | .error e => .error e

def ernieFoldChunks (parseJson : List Char → Option ErnieFrame) :
    List (List Char) → StreamAcc → Except String StreamAcc
  | [], acc => .ok acc
  | c :: cs, acc =>
    match ernieFoldLines parseJson ((splitNl c).filter (fun l => jsTrimL l ≠ [])) acc with
    | .ok acc1 => ernieFoldChunks parseJson cs acc1
    | .error e => .error e

/-- `ErnieAdapter.generateDocStream` over a list of decoded body chunks:
either the emitted callback strings with the returned response, or the
rethrown in-band error. -/
def ernieGenerateDocStream (parseJson : List Char → Option ErnieFrame)
    (netChunks : List (List Char)) :
    Except String (List (List Char) × LLMResponse) :=
  (ernieFoldChunks parseJson netChunks initAcc).map
    (fun acc => (acc.chunks, { content := strOf acc.fullContent, usage := acc.usage }))

/-- The fields the Xfyun message handler reads from a parsed frame. -/
structure XfFrame where
  code : Int
  status : Int
  message : String
  text : Option (List XfText)
  usage : Option Usage
deriving DecidableEq, Repr

/-- The settled or pending state of the Xfyun stream promise. -/
inductive XfOutcome
  | pending (acc : StreamAcc)
  | resolved (chunks : List (List Char)) (resp : LLMResponse)
  | rejected (msg : String)
deriving DecidableEq, Repr

/-- One inbound WebSocket message of `XfyunSparkAdapter.generateDocStream`:
unparseable frames are logged and skipped; a non-zero header code rejects;
a nonempty `text` array appends `text[0].content || ''` and invokes the
callback (even with empty text); `status = 2` closes and resolves with the
accumulated content.  Once settled, later frames are ignored (the socket
is closed and the promise settled). -/
def xfyunStep (st : XfOutcome) (f : Option XfFrame) : XfOutcome :=
  match st with
  | .resolved chunks resp => .resolved chunks resp
  | .rejected msg => .rejected msg
  | .pending acc =>
    match f with
    | none => .pending acc
    | some fr =>
      if fr.code ≠ 0 then
        .rejected ("讯飞API错误: " ++ toString fr.code ++ " - " ++ fr.message)
      else
        if fr.status = 2 then
          .resolved (setUsage (xfyunPush acc fr.text) fr.usage).chunks
            { content := strOf (setUsage (xfyunPush acc fr.text) fr.usage).fullContent,
              usage := (setUsage (xfyunPush acc fr.text) fr.usage).usage }
        else .pending (setUsage (xfyunPush acc fr.text) fr.usage)

/-- The Xfyun message loop over the inbound frames, from the fresh
accumulator. -/
def xfyunGenerateDocStream (frames : List (Option XfFrame)) : XfOutcome :=
  frames.foldl xfyunStep (.pending initAcc)

/-- `MockDocGenerator.generateStream`: the canned content is split into
single characters, each delivered to the callback with a small delay, and
the result carries the same content. -/
def mockGenerateStream (request : GenerateRequest) (uuid now : String) :
    List (List Char) × GenerateResult :=
  ((getMockContent request.docType).data.map (fun c => [c]),
   { id := uuid, docType := request.docType,
     title := "示例" ++ getDocTypeName request.docType,
     content := getMockContent request.docType,
     createdAt := now, inputType := request.type })

/-!
## C9 / C10: streaming properties
-/

/-- The loop invariant: the accumulated text is the in-order
concatenation of the delivered chunks. -/
def accConsistent (acc : StreamAcc) : Prop :=
  acc.fullContent = acc.chunks.flatten

theorem initAcc_consistent : accConsistent initAcc := rfl

theorem pushChunk_consistent {acc : StreamAcc} {c : List Char}
    (h : accConsistent acc) : accConsistent (pushChunk acc c) := by
  unfold accConsistent at h ⊢
  unfold pushChunk
  split
  · simp [h]
  · exact h

theorem setUsage_consistent {acc : StreamAcc} {u : Option Usage}
    (h : accConsistent acc) : accConsistent (setUsage acc u) := by
  cases u with
  | none => exact h
  | some u => exact h

theorem xfyunPush_consistent {acc : StreamAcc} {t : Option (List XfText)}
    (h : accConsistent acc) : accConsistent (xfyunPush acc t) := by
  unfold accConsistent at h ⊢
  cases t with
  | none => exact h
  | some ts =>
    unfold xfyunPush
    simp only
    split
    · simp [h]
    · exact h

theorem foldl_preserve {α β : Type} (f : β → α → β) (P : β → Prop)
    (hstep : ∀ b a, P b → P (f b a)) :
    ∀ (l : List α) (b : β), P b → P (l.foldl f b) := by
  intro l
  induction l with
  | nil => intro b hb; exact hb
  | cons x xs ih => intro b hb; exact ih (f b x) (hstep b x hb)

theorem zhipuProcessLine_consistent (p : List Char → Option ZhipuFrame)
    (acc : StreamAcc) (line : List Char) (h : accConsistent acc) :
    accConsistent (zhipuProcessLine p acc line) := by
  unfold zhipuProcessLine
  split
  · split
    · exact h
    · cases p (line.drop 6) with
      | none => exact h
      | some parsed => exact setUsage_consistent (pushChunk_consistent h)
  · exact h

theorem zhipuProcessChunk_consistent (p : List Char → Option ZhipuFrame)
    (acc : StreamAcc) (chunk : List Char) (h : accConsistent acc) :
    accConsistent (zhipuProcessChunk p acc chunk) :=
  foldl_preserve _ _ (fun b a hb => zhipuProcessLine_consistent p b a hb) _ acc h

theorem ernieProcessLine_consistent {p : List Char → Option ErnieFrame}
    {acc acc1 : StreamAcc} {line : List Char} (h : accConsistent acc)
    (hok : ernieProcessLine p acc line = .ok acc1) : accConsistent acc1 := by
  unfold ernieProcessLine at hok
  split at hok
  · split at hok
    · cases hok; exact h
    · split at hok
      · cases hok; exact h
      · split at hok
        · cases hok
        · cases hok
          exact setUsage_consistent (pushChunk_consistent h)
  · cases hok; exact h

theorem ernieFoldLines_consistent {p : List Char → Option ErnieFrame} :
    ∀ {ls : List (List Char)} {acc acc' : StreamAcc}, accConsistent acc →
      ernieFoldLines p ls acc = .ok acc' → accConsistent acc' := by
  intro ls
  induction ls with
  | nil =>
    intro acc acc' h hok
    cases hok
    exact h
  | cons l ls ih =>
    intro acc acc' h hok
    unfold ernieFoldLines at hok
    cases hl : ernieProcessLine p acc l with
    | ok acc1 =>
      rw [hl] at hok
      exact ih (ernieProcessLine_consistent h hl) hok
    | error e => rw [hl] at hok; cases hok

theorem ernieFoldChunks_consistent {p : List Char → Option ErnieFrame} :
    ∀ {cs : List (List Char)} {acc acc' : StreamAcc}, accConsistent acc →
      ernieFoldChunks p cs acc = .ok acc' → accConsistent acc' := by
  intro cs
  induction cs with
  | nil =>
    intro acc acc' h hok
    cases hok
    exact h
  | cons c cs ih =>
    intro acc acc' h hok
    unfold ernieFoldChunks at hok
    cases hl : ernieFoldLines p ((splitNl c).filter (fun l => jsTrimL l ≠ [])) acc with
    | ok acc1 =>
      rw [hl] at hok
      exact ih (ernieFoldLines_consistent h hl) hok
    | error e => rw [hl] at hok; cases hok

/-- The Xfyun promise invariant: a pending accumulator is consistent; a
resolved response carries exactly the concatenation of its chunks. -/
def xfInvariant : XfOutcome → Prop
  | .pending acc => accConsistent acc
  | .resolved chunks resp => resp.content = strOf chunks.flatten
  | .rejected _ => True

theorem xfyunStep_invariant (st : XfOutcome) (f : Option XfFrame)
    (h : xfInvariant st) : xfInvariant (xfyunStep st f) := by
  cases st with
  | resolved chunks resp => exact h
  | rejected msg => trivial
  | pending acc =>
    cases f with
    | none => exact h
    | some fr =>
      show xfInvariant
        (if fr.code ≠ 0 then
          XfOutcome.rejected ("讯飞API错误: " ++ toString fr.code ++ " - " ++ fr.message)
        else
          if fr.status = 2 then
            XfOutcome.resolved (setUsage (xfyunPush acc fr.text) fr.usage).chunks
              { content := strOf (setUsage (xfyunPush acc fr.text) fr.usage).fullContent,
                usage := (setUsage (xfyunPush acc fr.text) fr.usage).usage }
          else XfOutcome.pending (setUsage (xfyunPush acc fr.text) fr.usage))
      have hc : accConsistent (setUsage (xfyunPush acc fr.text) fr.usage) :=
        setUsage_consistent (xfyunPush_consistent h)
      by_cases hcode : fr.code ≠ 0
      · rw [if_pos hcode]
        trivial
      · rw [if_neg hcode]
        by_cases hstat : fr.status = 2
        · rw [if_pos hstat]
          exact congrArg strOf hc
        · rw [if_neg hstat]
          exact hc

theorem flatten_map_singleton (l : List Char) :
    (l.map (fun c => [c])).flatten = l := by
  induction l with
  | nil => rfl
  | cons c cs ih => simp [ih]

/-- C9: for the Mock generator's streaming method and for the Zhipu,
ERNIE, and Xfyun adapters' streaming methods, the `content` of the
returned result equals the in-order concatenation of all strings passed
to the `onChunk` callback (and every Mock chunk is one character of the
canned content). -/
theorem stream_content_is_chunk_concat :
    (∀ (request : GenerateRequest) (uuid now : String),
      (mockGenerateStream request uuid now).2.content =
        strOf ((mockGenerateStream request uuid now).1.flatten) ∧
      ∀ ch ∈ (mockGenerateStream request uuid now).1, ch.length = 1) ∧
    (∀ (parseJson : List Char → Option ZhipuFrame) (netChunks : List (List Char)),
      (zhipuGenerateDocStream parseJson netChunks).2.content =
        strOf (zhipuGenerateDocStream parseJson netChunks).1.flatten) ∧
    (∀ (parseJson : List Char → Option ErnieFrame) (netChunks : List (List Char))
        (res : List (List Char) × LLMResponse),
      ernieGenerateDocStream parseJson netChunks = .ok res →
      res.2.content = strOf res.1.flatten) ∧
    (∀ (frames : List (Option XfFrame)) (chunks : List (List Char))
        (resp : LLMResponse),
      xfyunGenerateDocStream frames = XfOutcome.resolved chunks resp →
      resp.content = strOf chunks.flatten) := by
  refine ⟨?_, ?_, ?_, ?_⟩
  · intro request uuid now
    refine ⟨?_, ?_⟩
    · show getMockContent request.docType =
        strOf ((getMockContent request.docType).data.map (fun c => [c])).flatten
      rw [flatten_map_singleton]
      rfl
    · intro ch hch
      have hch' : ch ∈ (getMockContent request.docType).data.map (fun c => [c]) := hch
      rcases List.mem_map.mp hch' with ⟨c, _, rfl⟩
      rfl
  · intro parseJson netChunks
    have h : accConsistent (netChunks.foldl (zhipuProcessChunk parseJson) initAcc) :=
      foldl_preserve _ _ (fun b a hb => zhipuProcessChunk_consistent parseJson b a hb)
        netChunks initAcc initAcc_consistent
    unfold accConsistent at h
    show strOf (netChunks.foldl (zhipuProcessChunk parseJson) initAcc).fullContent =
      strOf (netChunks.foldl (zhipuProcessChunk parseJson) initAcc).chunks.flatten
    rw [h]
  · intro parseJson netChunks res hok
    unfold ernieGenerateDocStream at hok
    cases hfold : ernieFoldChunks parseJson netChunks initAcc with
    | ok acc =>
      rw [hfold] at hok
      simp only [Except.map] at hok
      cases hok
      have h := ernieFoldChunks_consistent initAcc_consistent hfold
      unfold accConsistent at h
      show strOf acc.fullContent = strOf acc.chunks.flatten
      rw [h]
    | error e =>
      rw [hfold] at hok
      simp only [Except.map] at hok
      cases hok
  · intro frames chunks resp hres
    have h : xfInvariant (xfyunGenerateDocStream frames) :=
      foldl_preserve _ _ (fun b a hb => xfyunStep_invariant b a hb)
        frames (.pending initAcc) initAcc_consistent
    rw [hres] at h
    exact h

/-- Witness for C9: a single Xfyun frame with code 0, status 2, and text
`hi` resolves with content `hi`, matching the single delivered chunk. -/
theorem stream_content_is_chunk_concat_witness :
    xfyunGenerateDocStream [some ⟨0, 2, "", some [⟨some "hi"⟩], none⟩] =
      XfOutcome.resolved ["hi".data] { content := "hi" } ∧
    ("hi" : String) = strOf (["hi".data] : List (List Char)).flatten :=
  ⟨by decide,
   stream_content_is_chunk_concat.2.2.2 [some ⟨0, 2, "", some [⟨some "hi"⟩], none⟩]
     ["hi".data] { content := "hi" } (by decide)⟩

/-- C10: in the SSE loops of the Zhipu and ERNIE adapters, a `data: `
line whose payload does not parse as JSON — and for Zhipu the literal
`[DONE]` terminator — is skipped silently: the accumulator (content,
usage, delivered chunks) is unchanged, no error is raised (the ERNIE step
returns `ok`), and the loop continues with the next line. -/
theorem sse_invalid_json_skipped :
    (∀ (parseJson : List Char → Option ZhipuFrame) (acc : StreamAcc)
        (line : List Char), startsWithL line "data: ".data = true →
      (parseJson (line.drop 6) = none ∨ line.drop 6 = "[DONE]".data) →
      zhipuProcessLine parseJson acc line = acc) ∧
    (∀ (parseJson : List Char → Option ZhipuFrame) (acc : StreamAcc)
        (line : List Char) (rest : List (List Char)),
      startsWithL line "data: ".data = true →
      (parseJson (line.drop 6) = none ∨ line.drop 6 = "[DONE]".data) →
      (line :: rest).foldl (zhipuProcessLine parseJson) acc =
        rest.foldl (zhipuProcessLine parseJson) acc) ∧
    (∀ (parseJson : List Char → Option ErnieFrame) (acc : StreamAcc)
        (line : List Char), startsWithL line "data: ".data = true →
      (parseJson (line.drop 6) = none ∨ line.drop 6 = "[DONE]".data) →
      ernieProcessLine parseJson acc line = .ok acc) := by
  have hz : ∀ (parseJson : List Char → Option ZhipuFrame) (acc : StreamAcc)
      (line : List Char), startsWithL line "data: ".data = true →
      (parseJson (line.drop 6) = none ∨ line.drop 6 = "[DONE]".data) →
      zhipuProcessLine parseJson acc line = acc := by
    intro parseJson acc line hdata hskip
    unfold zhipuProcessLine
    rw [if_pos hdata]
    rcases hskip with hnone | hdone
    · by_cases hd : line.drop 6 = "[DONE]".data
      · rw [if_pos hd]
      · rw [if_neg hd, hnone]
    · rw [if_pos hdone]
  refine ⟨hz, ?_, ?_⟩
  · intro parseJson acc line rest hdata hskip
    simp only [List.foldl_cons]
    rw [hz parseJson acc line hdata hskip]
  · intro parseJson acc line hdata hskip
    unfold ernieProcessLine
    rw [if_pos hdata]
    rcases hskip with hnone | hdone
    · by_cases hd : line.drop 6 = "[DONE]".data
      · rw [if_pos hd]
      · rw [if_neg hd, hnone]
    · rw [if_pos hdone]

/-- Witness for C10: the Zhipu loop leaves the fresh accumulator
unchanged on `data: [DONE]` and on an unparseable payload. -/
theorem sse_invalid_json_skipped_witness :
    (startsWithL "data: [DONE]".data "data: ".data = true ∧
      zhipuProcessLine (fun _ => none) initAcc "data: [DONE]".data = initAcc) ∧
    (startsWithL "data: notjson".data "data: ".data = true ∧
      ernieProcessLine (fun _ => none) initAcc "data: notjson".data = .ok initAcc) :=
  ⟨⟨by decide,
    sse_invalid_json_skipped.1 (fun _ => none) initAcc "data: [DONE]".data
      (by decide) (Or.inl rfl)⟩,
   ⟨by decide,
    sse_invalid_json_skipped.2.2 (fun _ => none) initAcc "data: notjson".data
      (by decide) (Or.inl rfl)⟩⟩

end DocGen
